import Mathlib

/-!
Verification of the `su_doku` Sudoku engine (`src/su_doku/sudoku.py`).

The grid is embedded as a flat row-major list of naturals together with its
side length `n`, mirroring the `numpy.ndarray`-backed `Sudoku` class.  Cell
values are `uint8` in the source; they are modelled as `Nat`, with the wrap
of the `uint8` cast (`np.array(grid, dtype=uint8)`) made explicit as `% 256`
in the validated constructor `construct`.  All claims live at side lengths
whose digits are representable, where the two semantics agree.

Mutation of `self` in `solve_inplace` is modelled by threading the state of
the mutated object: the solver returns `(result, selfAfter)`.  The random
shuffle of `random_candidates` is modelled by an adversarial reordering
function `sh : Sudoku → List Nat → List Nat`; the theorems quantify over all
`sh` producing permutations (`ShValid`), which covers every sequence of
random candidate orderings, since distinct search nodes carry distinct grids.
-/

set_option maxHeartbeats 2000000

namespace SuDoku

/-! ## Definitions: the embedding of the `Sudoku` class -/

structure Sudoku where
  n : Nat
  cells : List Nat
deriving DecidableEq, Repr

def getCell (g : Sudoku) (r c : Nat) : Nat :=
  g.cells.getD (r * g.n + c) 0

def setCell (g : Sudoku) (r c v : Nat) : Sudoku :=
  ⟨g.n, g.cells.set (r * g.n + c) v⟩

def intSqrtAux : Nat → Nat → Nat
  | 0, _ => 0
  | c + 1, n => if (c + 1) * (c + 1) ≤ n then c + 1 else intSqrtAux c n

def intSqrt (n : Nat) : Nat :=
  intSqrtAux n n

def sqrtN (g : Sudoku) : Nat :=
  intSqrt g.n

def emptyGrid (n : Nat) : Sudoku :=
  ⟨n, List.replicate (n * n) 0⟩

def mkCopy (g : Sudoku) : Sudoku :=
  ⟨g.n, g.cells⟩

def rowSafe (g : Sudoku) (r d : Nat) : Bool :=
  (List.range g.n).all fun c => getCell g r c != d

def colSafe (g : Sudoku) (c d : Nat) : Bool :=
  (List.range g.n).all fun r => getCell g r c != d

def boxSafe (g : Sudoku) (r c d : Nat) : Bool :=
  (List.range (sqrtN g)).all fun i =>
    (List.range (sqrtN g)).all fun j =>
      !(decide (r / sqrtN g * sqrtN g + i < g.n)) ||
      !(decide (c / sqrtN g * sqrtN g + j < g.n)) ||
      (getCell g (r / sqrtN g * sqrtN g + i) (c / sqrtN g * sqrtN g + j) != d)

def isSafe (g : Sudoku) (r c d : Nat) : Bool :=
  rowSafe g r d && colSafe g c d && boxSafe g r c d

def candidates (g : Sudoku) (r c : Nat) : List Nat :=
  ((List.range g.n).map (· + 1)).filter fun d => isSafe g r c d

def findZeroIdx : List Nat → Option Nat
  | [] => none
  | x :: xs => if x = 0 then some 0 else (findZeroIdx xs).map (· + 1)

def findEmpty (g : Sudoku) : Option (Nat × Nat) :=
  (findZeroIdx g.cells).map fun i => (i / g.n, i % g.n)

def countZeros (g : Sudoku) : Nat :=
  g.cells.count 0

def solveStep (solve : Sudoku → Option Sudoku × Sudoku) (r c : Nat)
    (acc : Option Sudoku × Sudoku) (d : Nat) : Option Sudoku × Sudoku :=
  match acc with
  | (some s, h) => (some s, h)
  | (none, h) => solve (setCell h r c d)

def solveCell (solve : Sudoku → Option Sudoku × Sudoku) (r c : Nat)
    (cands : List Nat) (g : Sudoku) : Option Sudoku × Sudoku :=
  match cands.foldl (solveStep solve r c) (none, g) with
  | (some s, h) => (some s, h)
  | (none, h) => (none, setCell h r c 0)

def solveAux (sh : Sudoku → List Nat → List Nat) (fuel : Nat) :
    Sudoku → Option Sudoku × Sudoku :=
  Nat.rec (motive := fun _ => Sudoku → Option Sudoku × Sudoku)
    (fun g => (none, g))
    (fun _ solve g =>
      match findEmpty g with
      | none => (some g, g)
      | some (r, c) => solveCell solve r c (sh g (candidates g r c)) g)
    fuel

def solveInplace (sh : Sudoku → List Nat → List Nat) (g : Sudoku) :
    Option Sudoku × Sudoku :=
  solveAux sh (countZeros g + 1) g

def hasSolution (sh : Sudoku → List Nat → List Nat) (g : Sudoku) :
    Bool × Sudoku :=
  (((solveAux sh (countZeros (mkCopy g) + 1) (mkCopy g)).1).isSome, g)

def insertSol (sols : List Sudoku) (s : Sudoku) : List Sudoku :=
  if s ∈ sols then sols else sols ++ [s]

def solveAllHelper (fuel : Nat) : Sudoku → List Sudoku → List Sudoku × Sudoku :=
  Nat.rec (motive := fun _ => Sudoku → List Sudoku → List Sudoku × Sudoku)
    (fun g sols => (sols, g))
    (fun _ helper g sols =>
      match findEmpty g with
      | none => (insertSol sols g, g)
      | some (r, c) =>
        ((candidates g r c).foldl
          (fun acc d => (helper (setCell (mkCopy g) r c d) acc).1) sols, g))
    fuel

def solveAll (g : Sudoku) : List Sudoku × Sudoku :=
  solveAllHelper (countZeros g + 1) g []

def isUniqueGo (fuel : Nat) (g : Sudoku) (r c : Nat) :
    List Nat → List Sudoku → Bool
  | [], _ => true
  | d :: ds, sols =>
    let sols' := (solveAllHelper fuel (setCell (mkCopy g) r c d) sols).1
    if 1 < sols'.length then false else isUniqueGo fuel g r c ds sols'

def isUniqueHelper (g : Sudoku) (sols : List Sudoku) : Bool × Sudoku :=
  match findEmpty g with
  | none => ((insertSol sols g).length == 1, g)
  | some (r, c) => (isUniqueGo (countZeros g) g r c (candidates g r c) sols, g)

def isUnique (g : Sudoku) : Bool × Sudoku :=
  isUniqueHelper g []

def findHit (g : Sudoku) : List (Nat × Nat) → Option (Nat × Nat × List (Nat × Nat))
  | [] => none
  | (r, c) :: rest =>
    if getCell g r c = 0 then findHit g rest else some (r, c, rest)

def carve : Sudoku → Nat → List (Nat × Nat) → Option Sudoku
  | g, 0, _ => some g
  | g, k + 1, trace =>
    match findHit g trace with
    | none => none
    | some (r, c, rest) => carve (setCell g r c 0) k rest

def generate (sh : Sudoku → List Nat → List Nat) (trace : List (Nat × Nat))
    (n k : Nat) : Option Sudoku :=
  if n * n < k then none
  else
    carve ((solveAux sh (countZeros (emptyGrid n) + 1) (emptyGrid n)).2) k trace

def genUniqueLoop (att : Nat → Sudoku) (k limit : Nat) :
    Nat → Nat → Except String Sudoku
  | _, 0 => Except.error "GenerationExhausted"
  | attempts, fuel + 1 =>
    if limit ≤ attempts + 1 then Except.error "GenerationExhausted"
    else
      let s := att (attempts + 1)
      if k = 0 then Except.ok s
      else if (isUnique s).1 then Except.ok s
      else genUniqueLoop att k limit (attempts + 1) fuel

def generateUnique (att : Nat → Sudoku) (k limit : Nat) : Except String Sudoku :=
  genUniqueLoop att k limit 0 limit

instance decEqExceptSudoku : DecidableEq (Except String Sudoku) := fun a b =>
  match a, b with
  | Except.error x, Except.error y =>
    if h : x = y then isTrue (by rw [h]) else
      isFalse (by intro he; exact h (Except.error.inj he))
  | Except.error _, Except.ok _ => isFalse (by intro he; exact Except.noConfusion he)
  | Except.ok _, Except.error _ => isFalse (by intro he; exact Except.noConfusion he)
  | Except.ok x, Except.ok y =>
    if h : x = y then isTrue (by rw [h]) else
      isFalse (by intro he; exact h (Except.ok.inj he))

def construct (rows : List (List Nat)) : Except String Sudoku :=
  let n := rows.length
  let cells := (rows.flatMap id).map (· % 256)
  match rows with
  | [] => Except.error "Grid is not two-dimensional"
  | r0 :: _ =>
    if ¬ (rows.all fun row => row.length = r0.length) then
      Except.error "Grid is not two-dimensional"
    else if ¬ (r0.length = n) then
      Except.error "Grid is not square"
    else if ¬ (intSqrt n * intSqrt n = n) then
      Except.error "N is not a perfect square"
    else if ¬ (cells.all fun x => x ≤ n) then
      Except.error "Grid contains invalid digits"
    else
      Except.ok ⟨n, cells⟩

def WF (g : Sudoku) : Prop :=
  g.cells.length = g.n * g.n

def InRange (g : Sudoku) : Prop :=
  ∀ x ∈ g.cells, x ≤ g.n

def Complete (g : Sudoku) : Prop :=
  0 ∉ g.cells

def Consistent (g : Sudoku) : Prop :=
  (∀ r, r < g.n → ∀ c, c < g.n → ∀ c', c' < g.n → c ≠ c' →
    getCell g r c ≠ 0 → getCell g r c ≠ getCell g r c') ∧
  (∀ c, c < g.n → ∀ r, r < g.n → ∀ r', r' < g.n → r ≠ r' →
    getCell g r c ≠ 0 → getCell g r c ≠ getCell g r' c) ∧
  (∀ r, r < g.n → ∀ c, c < g.n → ∀ r', r' < g.n → ∀ c', c' < g.n →
    r / sqrtN g = r' / sqrtN g → c / sqrtN g = c' / sqrtN g →
    (r ≠ r' ∨ c ≠ c') → getCell g r c ≠ 0 →
    getCell g r c ≠ getCell g r' c')

def ExtendsGrid (s g : Sudoku) : Prop :=
  s.n = g.n ∧
  ∀ r, r < g.n → ∀ c, c < g.n → getCell g r c ≠ 0 → getCell s r c = getCell g r c

def Completion (s g : Sudoku) : Prop :=
  WF s ∧ Complete s ∧ Consistent s ∧ InRange s ∧ ExtendsGrid s g

def SquareN (g : Sudoku) : Prop :=
  sqrtN g * sqrtN g = g.n

def Inv (g : Sudoku) : Prop :=
  WF g ∧ SquareN g ∧ Consistent g ∧ InRange g

instance decWF (g : Sudoku) : Decidable (WF g) := by
  unfold WF; infer_instance

instance decInRange (g : Sudoku) : Decidable (InRange g) := by
  unfold InRange; infer_instance

instance decComplete (g : Sudoku) : Decidable (Complete g) := by
  unfold Complete; infer_instance

instance decConsistent (g : Sudoku) : Decidable (Consistent g) := by
  unfold Consistent
  exact @instDecidableAnd _ _
    (@Nat.decidableBallLT _ _ fun _r _ => @Nat.decidableBallLT _ _ fun _c _ =>
      @Nat.decidableBallLT _ _ fun _v _ => inferInstance)
    (@instDecidableAnd _ _
      (@Nat.decidableBallLT _ _ fun _r _ => @Nat.decidableBallLT _ _ fun _c _ =>
        @Nat.decidableBallLT _ _ fun _v _ => inferInstance)
      (@Nat.decidableBallLT _ _ fun _r _ => @Nat.decidableBallLT _ _ fun _c _ =>
        @Nat.decidableBallLT _ _ fun _u _ => @Nat.decidableBallLT _ _ fun _v _ =>
          inferInstance))

instance decExtendsGrid (s g : Sudoku) : Decidable (ExtendsGrid s g) := by
  unfold ExtendsGrid; infer_instance

instance decCompletion (s g : Sudoku) : Decidable (Completion s g) := by
  unfold Completion; infer_instance

instance decSquareN (g : Sudoku) : Decidable (SquareN g) := by
  unfold SquareN; infer_instance

instance decInv (g : Sudoku) : Decidable (Inv g) := by
  unfold Inv; infer_instance

def ShValid (sh : Sudoku → List Nat → List Nat) : Prop :=
  ∀ g l, List.Perm (sh g l) l

def shId : Sudoku → List Nat → List Nat :=
  fun _ l => l

def rowValues (g : Sudoku) (r : Nat) : List Nat :=
  (List.range g.n).map fun c => getCell g r c

def colValues (g : Sudoku) (c : Nat) : List Nat :=
  (List.range g.n).map fun r => getCell g r c

def boxValues (g : Sudoku) (s R C : Nat) : List Nat :=
  (List.range (s * s)).map fun t => getCell g (R * s + t / s) (C * s + t % s)

def canonCell (s r c : Nat) : Nat :=
  ((r % s) * s + r / s + c) % (s * s) + 1

def canonical (s : Nat) : Sudoku :=
  ⟨s * s, (List.range (s * s * (s * s))).map fun i =>
    canonCell s (i / (s * s)) (i % (s * s))⟩

def canonBase (s r : Nat) : Nat :=
  (r % s) * s + r / s

def solved4 : Sudoku :=
  ⟨4, [1, 2, 3, 4, 3, 4, 1, 2, 2, 1, 4, 3, 4, 3, 2, 1]⟩

def oneCell4 : Sudoku :=
  ⟨4, [0, 2, 3, 4, 3, 4, 1, 2, 2, 1, 4, 3, 4, 3, 2, 1]⟩

def stuck4 : Sudoku :=
  ⟨4, [0, 2, 3, 4, 1, 0, 0, 0, 0, 0, 0, 0, 0, 0, 0, 0]⟩

def clash4 : Sudoku :=
  ⟨4, [1, 1, 2, 2, 3, 3, 4, 4, 2, 2, 1, 1, 4, 4, 3, 3]⟩

def hole1 : Sudoku :=
  ⟨1, [0]⟩

def open2 : Sudoku :=
  ⟨2, [0, 0, 0, 0]⟩

def good4 : List (List Nat) :=
  [[1, 2, 3, 4], [3, 4, 1, 2], [2, 1, 4, 3], [4, 3, 2, 1]]

def bad4 : List (List Nat) :=
  [[256, 2, 3, 4], [3, 4, 1, 2], [2, 1, 4, 3], [4, 3, 2, 1]]

/-! ## Theorems -/

theorem list_getD_set_ne : ∀ (l : List Nat) (i j v : Nat), i ≠ j →
    (l.set i v).getD j 0 = l.getD j 0 := by
  intro l
  induction l with
  | nil => intro i j v _; simp
  | cons x xs ih =>
    intro i j v hij
    cases i with
    | zero =>
      cases j with
      | zero => exact absurd rfl hij
      | succ j' => simp [List.set, List.getD]
    | succ i' =>
      cases j with
      | zero => simp [List.set, List.getD]
      | succ j' =>
        simp only [List.set, List.getD_cons_succ]
        exact ih i' j' v (fun h => hij (by rw [h]))

theorem list_getD_set_self : ∀ (l : List Nat) (i v : Nat), i < l.length →
    (l.set i v).getD i 0 = v := by
  intro l
  induction l with
  | nil => intro i v h; simp at h
  | cons x xs ih =>
    intro i v h
    cases i with
    | zero => simp [List.set, List.getD]
    | succ i' =>
      simp only [List.set, List.getD_cons_succ]
      exact ih i' v (by simpa using h)

theorem list_set_getD_self : ∀ (l : List Nat) (i : Nat), i < l.length →
    l.set i (l.getD i 0) = l := by
  intro l
  induction l with
  | nil => intro i h; simp at h
  | cons x xs ih =>
    intro i h
    cases i with
    | zero => simp [List.set, List.getD]
    | succ i' =>
      simp only [List.getD_cons_succ, List.set]
      rw [ih i' (by simpa using h)]

theorem list_getD_ge_len : ∀ (l : List Nat) (i : Nat), l.length ≤ i →
    l.getD i 0 = 0 := by
  intro l
  induction l with
  | nil => intro i _; simp [List.getD]
  | cons x xs ih =>
    intro i h
    cases i with
    | zero => simp at h
    | succ i' =>
      simp only [List.getD_cons_succ]
      exact ih i' (by simpa using h)

theorem list_getD_mem : ∀ (l : List Nat) (i : Nat), i < l.length →
    l.getD i 0 ∈ l := by
  intro l
  induction l with
  | nil => intro i h; simp at h
  | cons x xs ih =>
    intro i h
    cases i with
    | zero => simp [List.getD]
    | succ i' =>
      simp only [List.getD_cons_succ]
      exact List.mem_cons_of_mem _ (ih i' (by simpa using h))

theorem list_count_set_of_eq_zero : ∀ (l : List Nat) (i v : Nat), i < l.length →
    l.getD i 0 = 0 → v ≠ 0 → (l.set i v).count 0 + 1 = l.count 0 := by
  intro l
  induction l with
  | nil => intro i v h; simp at h
  | cons x xs ih =>
    intro i v hlen hz hv
    cases i with
    | zero =>
      simp only [List.getD_cons_zero] at hz
      subst hz
      simp [List.set, List.count_cons, hv]
    | succ i' =>
      simp only [List.getD_cons_succ] at hz
      have := ih i' v (by simpa using hlen) hz hv
      simp [List.set, List.count_cons]
      omega

theorem list_count_set_of_ne_zero : ∀ (l : List Nat) (i : Nat), i < l.length →
    l.getD i 0 ≠ 0 → (l.set i 0).count 0 = l.count 0 + 1 := by
  intro l
  induction l with
  | nil => intro i h; simp at h
  | cons x xs ih =>
    intro i hlen hz
    cases i with
    | zero =>
      simp only [List.getD_cons_zero] at hz
      simp [List.set, List.count_cons, hz]
    | succ i' =>
      simp only [List.getD_cons_succ] at hz
      have := ih i' (by simpa using hlen) hz
      simp [List.set, List.count_cons]
      omega

theorem list_ext_getD : ∀ (l₁ l₂ : List Nat), l₁.length = l₂.length →
    (∀ i, i < l₁.length → l₁.getD i 0 = l₂.getD i 0) → l₁ = l₂ := by
  intro l₁
  induction l₁ with
  | nil =>
    intro l₂ hlen _
    cases l₂ with
    | nil => rfl
    | cons y ys => simp at hlen
  | cons x xs ih =>
    intro l₂ hlen hpt
    cases l₂ with
    | nil => simp at hlen
    | cons y ys =>
      have hx : x = y := by simpa [List.getD] using hpt 0 (by simp)
      have hxs : xs = ys := by
        refine ih ys (by simpa using hlen) ?_
        intro i hi
        simpa [List.getD_cons_succ] using hpt (i + 1) (by simpa using Nat.succ_lt_succ hi)
      rw [hx, hxs]

theorem shId_valid : ShValid shId :=
  fun _ l => List.Perm.refl l

theorem idx_div (n r c : Nat) (hc : c < n) : (r * n + c) / n = r := by
  have h0 : 0 < n := Nat.pos_of_ne_zero (by intro h; rw [h] at hc; exact Nat.not_lt_zero c hc)
  rw [Nat.add_comm, Nat.mul_comm, Nat.add_mul_div_left c r h0, Nat.div_eq_of_lt hc,
    Nat.zero_add]

theorem idx_mod (n r c : Nat) (hc : c < n) : (r * n + c) % n = c := by
  rw [Nat.add_comm, Nat.mul_comm, Nat.add_mul_mod_self_left, Nat.mod_eq_of_lt hc]

theorem idx_lt (n r c : Nat) (hr : r < n) (hc : c < n) : r * n + c < n * n := by
  have h1 : (r + 1) * n ≤ n * n := by
    have := Nat.mul_le_mul_right n (Nat.succ_le_of_lt hr)
    simpa using this
  have h2 : r * n + c < (r + 1) * n := by
    have : (r + 1) * n = r * n + n := by ring
    omega
  omega

theorem idx_inj (n r c r' c' : Nat) (hc : c < n) (hc' : c' < n)
    (h : r * n + c = r' * n + c') : r = r' ∧ c = c' := by
  constructor
  · rw [← idx_div n r c hc, ← idx_div n r' c' hc', h]
  · rw [← idx_mod n r c hc, ← idx_mod n r' c' hc', h]

theorem n_setCell (g : Sudoku) (r c v : Nat) : (setCell g r c v).n = g.n := rfl

theorem cells_length_setCell (g : Sudoku) (r c v : Nat) :
    (setCell g r c v).cells.length = g.cells.length := by
  simp [setCell]

theorem WF_setCell (g : Sudoku) (r c v : Nat) (h : WF g) : WF (setCell g r c v) := by
  unfold WF at *
  simpa [setCell] using h

theorem getCell_setCell_self (g : Sudoku) (r c v : Nat) (hwf : WF g)
    (hr : r < g.n) (hc : c < g.n) : getCell (setCell g r c v) r c = v := by
  unfold getCell setCell
  exact list_getD_set_self _ _ _ (by rw [hwf]; exact idx_lt g.n r c hr hc)

theorem getCell_setCell_ne (g : Sudoku) (r c r' c' v : Nat)
    (hc : c < g.n) (hc' : c' < g.n) (hne : r ≠ r' ∨ c ≠ c') :
    getCell (setCell g r c v) r' c' = getCell g r' c' := by
  have hidx : r * g.n + c ≠ r' * g.n + c' := by
    intro h
    rcases idx_inj g.n r c r' c' hc hc' h with ⟨h1, h2⟩
    rcases hne with h3 | h3
    · exact h3 h1
    · exact h3 h2
  unfold getCell setCell
  exact list_getD_set_ne _ _ _ _ hidx

theorem setCell_setCell (g : Sudoku) (r c v w : Nat) :
    setCell (setCell g r c v) r c w = setCell g r c w := by
  simp [setCell, List.set_set]

theorem setCell_self_zero (g : Sudoku) (r c : Nat) (hz : getCell g r c = 0)
    (hlt : r * g.n + c < g.cells.length) : setCell g r c 0 = g := by
  unfold getCell at hz
  unfold setCell
  rw [← hz, list_set_getD_self _ _ hlt]

theorem getCell_oob (g : Sudoku) (r c : Nat) (h : g.cells.length ≤ r * g.n + c) :
    getCell g r c = 0 :=
  list_getD_ge_len _ _ h

theorem InRange_setCell (g : Sudoku) (r c v : Nat) (h : InRange g) (hv : v ≤ g.n) :
    InRange (setCell g r c v) := by
  intro x hx
  rcases List.mem_or_eq_of_mem_set hx with h' | h'
  · exact h x h'
  · rw [h']; exact hv

theorem getCell_le (g : Sudoku) (r c : Nat) (h : InRange g) : getCell g r c ≤ g.n := by
  by_cases hlt : r * g.n + c < g.cells.length
  · exact h _ (list_getD_mem _ _ hlt)
  · rw [getCell_oob g r c (Nat.le_of_not_lt hlt)]
    exact Nat.zero_le _

theorem findZeroIdx_some : ∀ (l : List Nat) (i : Nat), findZeroIdx l = some i →
    i < l.length ∧ l.getD i 0 = 0 := by
  intro l
  induction l with
  | nil => intro i h; simp [findZeroIdx] at h
  | cons x xs ih =>
    intro i h
    by_cases hx : x = 0
    · simp [findZeroIdx, hx] at h
      subst h
      simp [List.getD, hx]
    · simp [findZeroIdx, hx] at h
      rcases h with ⟨j, hj, hji⟩
      rcases ih j hj with ⟨h1, h2⟩
      subst hji
      exact ⟨by simpa using Nat.succ_lt_succ h1, by simpa [List.getD_cons_succ] using h2⟩

theorem findZeroIdx_none : ∀ l : List Nat, findZeroIdx l = none ↔ 0 ∉ l := by
  intro l
  induction l with
  | nil => simp [findZeroIdx]
  | cons x xs ih =>
    by_cases hx : x = 0
    · simp [findZeroIdx, hx]
    · simp only [findZeroIdx, if_neg hx, Option.map_eq_none', ih]
      constructor
      · intro h hmem
        rcases List.mem_cons.mp hmem with h0 | h0
        · exact hx h0.symm
        · exact h h0
      · intro h h0
        exact h (List.mem_cons_of_mem x h0)

theorem findEmpty_none_iff (g : Sudoku) : findEmpty g = none ↔ Complete g := by
  unfold findEmpty Complete
  rw [Option.map_eq_none']
  exact findZeroIdx_none g.cells

theorem findEmpty_some_spec (g : Sudoku) (r c : Nat) (h : findEmpty g = some (r, c)) :
    getCell g r c = 0 ∧ r * g.n + c < g.cells.length ∧
      (WF g → r < g.n ∧ c < g.n) := by
  unfold findEmpty at h
  rcases Option.map_eq_some'.mp h with ⟨i, hi, hrc⟩
  rcases findZeroIdx_some g.cells i hi with ⟨hlen, hz⟩
  injection hrc with hr hc
  subst hr
  subst hc
  have hidx : i / g.n * g.n + i % g.n = i := by
    rw [Nat.mul_comm]
    exact Nat.div_add_mod i g.n
  refine ⟨?_, ?_, ?_⟩
  · unfold getCell
    rw [hidx]
    exact hz
  · rw [hidx]
    exact hlen
  · intro hwf
    rw [hwf] at hlen
    have hn : 0 < g.n := by
      by_contra h0
      have he : g.n = 0 := by omega
      rw [he] at hlen
      simp at hlen
    exact ⟨(Nat.div_lt_iff_lt_mul hn).mpr hlen, Nat.mod_lt i hn⟩

theorem findEmpty_some_bounds (g : Sudoku) (r c : Nat) (hwf : WF g)
    (h : findEmpty g = some (r, c)) : r < g.n ∧ c < g.n :=
  (findEmpty_some_spec g r c h).2.2 hwf

theorem complete_ne_zero (g : Sudoku) (r c : Nat) (hcomp : Complete g)
    (hlt : r * g.n + c < g.cells.length) : getCell g r c ≠ 0 := by
  intro h
  exact hcomp (h ▸ list_getD_mem _ _ hlt)

theorem countZeros_setCell_dec (g : Sudoku) (r c v : Nat) (hz : getCell g r c = 0)
    (hlt : r * g.n + c < g.cells.length) (hv : v ≠ 0) :
    countZeros (setCell g r c v) + 1 = countZeros g :=
  list_count_set_of_eq_zero _ _ _ hlt hz hv

theorem countZeros_setCell_inc (g : Sudoku) (r c : Nat) (hz : getCell g r c ≠ 0) :
    countZeros (setCell g r c 0) = countZeros g + 1 := by
  have hlt : r * g.n + c < g.cells.length := by
    by_contra h
    exact hz (getCell_oob g r c (Nat.le_of_not_lt h))
  exact list_count_set_of_ne_zero _ _ hlt hz

theorem complete_iff_countZeros (g : Sudoku) : Complete g ↔ countZeros g = 0 := by
  unfold Complete countZeros
  exact (List.count_eq_zero).symm

theorem rowSafe_iff (g : Sudoku) (r d : Nat) :
    rowSafe g r d = true ↔ ∀ c, c < g.n → getCell g r c ≠ d := by
  simp [rowSafe, List.all_eq_true, List.mem_range]

theorem colSafe_iff (g : Sudoku) (c d : Nat) :
    colSafe g c d = true ↔ ∀ r, r < g.n → getCell g r c ≠ d := by
  simp [colSafe, List.all_eq_true, List.mem_range]

theorem boxSafe_iff (g : Sudoku) (r c d : Nat) :
    boxSafe g r c d = true ↔ ∀ i, i < sqrtN g → ∀ j, j < sqrtN g →
      r / sqrtN g * sqrtN g + i < g.n → c / sqrtN g * sqrtN g + j < g.n →
      getCell g (r / sqrtN g * sqrtN g + i) (c / sqrtN g * sqrtN g + j) ≠ d := by
  simp only [boxSafe, List.all_eq_true, List.mem_range, Bool.or_eq_true,
    Bool.not_eq_true', decide_eq_false_iff_not, bne_iff_ne, ne_eq]
  constructor
  · intro h i hi j hj hri hcj
    have := h i hi j hj
    tauto
  · intro h i hi j hj
    have := h i hi j hj
    tauto

theorem isSafe_iff (g : Sudoku) (r c d : Nat) :
    isSafe g r c d = true ↔
      rowSafe g r d = true ∧ colSafe g c d = true ∧ boxSafe g r c d = true := by
  simp [isSafe, Bool.and_eq_true, and_assoc]

theorem mem_candidates (g : Sudoku) (r c d : Nat) :
    d ∈ candidates g r c ↔ 1 ≤ d ∧ d ≤ g.n ∧ isSafe g r c d = true := by
  simp only [candidates, List.mem_filter, List.mem_map, List.mem_range]
  constructor
  · rintro ⟨⟨a, ha, hd⟩, hsafe⟩
    exact ⟨by omega, by omega, hsafe⟩
  · rintro ⟨h1, h2, hsafe⟩
    exact ⟨⟨d - 1, by omega, by omega⟩, hsafe⟩

theorem intSqrtAux_spec (s : Nat) : ∀ (c n : Nat), n = s * s → s ≤ c →
    (∀ t, s < t → t ≤ c → n < t * t) → intSqrtAux c n = s := by
  intro c
  induction c with
  | zero => intro n _ hs _; unfold intSqrtAux; omega
  | succ c' ih =>
    intro n hn hs hgt
    unfold intSqrtAux
    by_cases h : (c' + 1) * (c' + 1) ≤ n
    · simp only [h, if_pos]
      by_contra hne
      have hlt : s < c' + 1 := by omega
      have := hgt (c' + 1) hlt (Nat.le_refl _)
      omega
    · simp only [h, if_neg, if_false]
      have hsc : s ≠ c' + 1 := by
        intro he
        exact h (by rw [← he, ← hn])
      exact ih n hn (by omega) (fun t ht1 ht2 => hgt t ht1 (by omega))

theorem intSqrt_sq (s : Nat) : intSqrt (s * s) = s := by
  unfold intSqrt
  refine intSqrtAux_spec s (s * s) (s * s) rfl ?_ ?_
  · cases s with
    | zero => exact Nat.le_refl 0
    | succ s' => exact Nat.le_mul_of_pos_left _ (Nat.succ_pos s')
  · intro t ht _
    exact Nat.mul_self_lt_mul_self ht

theorem sqrtN_setCell (g : Sudoku) (r c v : Nat) : sqrtN (setCell g r c v) = sqrtN g := rfl

theorem sqrtN_congr (s g : Sudoku) (h : s.n = g.n) : sqrtN s = sqrtN g := by
  unfold sqrtN
  rw [h]

theorem intSqrt_pos : ∀ c n : Nat, 1 ≤ c → 1 ≤ n → 1 ≤ intSqrtAux c n := by
  intro c
  induction c with
  | zero => intro n hc _; omega
  | succ c' ih =>
    intro n _ hn
    unfold intSqrtAux
    by_cases h : (c' + 1) * (c' + 1) ≤ n
    · simp only [h, if_pos]
      omega
    · simp only [h, if_neg, if_false]
      have hc' : 1 ≤ c' := by
        by_contra h0
        have he : c' = 0 := by omega
        rw [he] at h
        simp at h
        omega
      exact ih n hc' hn

theorem sqrtN_pos (g : Sudoku) (h : 0 < g.n) : 0 < sqrtN g :=
  intSqrt_pos g.n g.n h h

theorem box_pos_lt (g : Sudoku) (r i : Nat) (hsq : SquareN g) (hr : r < g.n)
    (hi : i < sqrtN g) : r / sqrtN g * sqrtN g + i < g.n := by
  have hsr : 0 < sqrtN g := by omega
  have h1 : r / sqrtN g < sqrtN g := by
    rw [Nat.div_lt_iff_lt_mul hsr]
    rw [SquareN] at hsq
    omega
  have h2 : (r / sqrtN g + 1) * sqrtN g ≤ sqrtN g * sqrtN g :=
    Nat.mul_le_mul_right _ (Nat.succ_le_of_lt h1)
  have h3 : (r / sqrtN g + 1) * sqrtN g = r / sqrtN g * sqrtN g + sqrtN g := by ring
  rw [SquareN] at hsq
  omega

theorem box_coord_div (sr r i : Nat) (hi : i < sr) :
    (r / sr * sr + i) / sr = r / sr :=
  idx_div sr (r / sr) i hi

theorem box_coord_decomp (sr r : Nat) (_hsr : 0 < sr) :
    r / sr * sr + r % sr = r := by
  rw [Nat.mul_comm]
  exact Nat.div_add_mod r sr

theorem consistent_setCell (g : Sudoku) (r c d : Nat) (hwf : WF g) (_hsq : SquareN g)
    (hcons : Consistent g) (hr : r < g.n) (hc : c < g.n) (hz : getCell g r c = 0)
    (hsafe : isSafe g r c d = true) (_hd : d ≠ 0) : Consistent (setCell g r c d) := by
  rcases (isSafe_iff g r c d).mp hsafe with ⟨hrow, hcol, hbox⟩
  have hrow' := (rowSafe_iff g r d).mp hrow
  have hcol' := (colSafe_iff g c d).mp hcol
  have hbox' := (boxSafe_iff g r c d).mp hbox
  have hget : ∀ r1 c1, c1 < g.n →
      getCell (setCell g r c d) r1 c1 =
        if r1 = r ∧ c1 = c then d else getCell g r1 c1 := by
    intro r1 c1 hc1
    by_cases h : r1 = r ∧ c1 = c
    · rcases h with ⟨h1, h2⟩
      subst h1
      subst h2
      rw [if_pos ⟨rfl, rfl⟩]
      exact getCell_setCell_self g r1 c1 d hwf hr hc
    · rw [if_neg h]
      push_neg at h
      refine getCell_setCell_ne g r c r1 c1 d hc hc1 ?_
      by_cases h1 : r1 = r
      · exact Or.inr (fun he => (h h1) he.symm)
      · exact Or.inl (fun he => h1 he.symm)
  have hsr : 0 < sqrtN g := by
    have : 0 < g.n := by omega
    exact sqrtN_pos g this
  refine ⟨?_, ?_, ?_⟩
  · -- rows
    intro r1 hr1 c1 hc1 c2 hc2 hne hnz
    have hr1' : r1 < g.n := hr1
    have hc1' : c1 < g.n := hc1
    have hc2' : c2 < g.n := hc2
    rw [hget r1 c1 hc1', hget r1 c2 hc2'] at *
    by_cases h1 : r1 = r ∧ c1 = c
    · rw [if_pos h1]
      have h2 : ¬ (r1 = r ∧ c2 = c) := by
        intro h2
        exact hne (h1.2.trans h2.2.symm)
      rw [if_neg h2]
      rcases h1 with ⟨he1, he2⟩
      subst he1
      exact fun he => hrow' c2 hc2' he.symm
    · rw [if_neg h1] at *
      by_cases h2 : r1 = r ∧ c2 = c
      · rw [if_pos h2]
        rcases h2 with ⟨he1, he2⟩
        subst he1
        exact hrow' c1 hc1'
      · rw [if_neg h2]
        exact hcons.1 r1 hr1' c1 hc1' c2 hc2' hne hnz
  · -- columns
    intro c1 hc1 r1 hr1 r2 hr2 hne hnz
    have hr1' : r1 < g.n := hr1
    have hr2' : r2 < g.n := hr2
    have hc1' : c1 < g.n := hc1
    rw [hget r1 c1 hc1', hget r2 c1 hc1'] at *
    by_cases h1 : r1 = r ∧ c1 = c
    · rw [if_pos h1]
      have h2 : ¬ (r2 = r ∧ c1 = c) := by
        intro h2
        exact hne (h1.1.trans h2.1.symm)
      rw [if_neg h2]
      rcases h1 with ⟨he1, he2⟩
      subst he2
      exact fun he => hcol' r2 hr2' he.symm
    · rw [if_neg h1] at *
      by_cases h2 : r2 = r ∧ c1 = c
      · rw [if_pos h2]
        rcases h2 with ⟨he1, he2⟩
        subst he2
        exact hcol' r1 hr1'
      · rw [if_neg h2]
        exact hcons.2.1 c1 hc1' r1 hr1' r2 hr2' hne hnz
  · -- boxes
    intro r1 hr1 c1 hc1 r2 hr2 c2 hc2 hbr hbc hne hnz
    have hr1' : r1 < g.n := hr1
    have hc1' : c1 < g.n := hc1
    have hr2' : r2 < g.n := hr2
    have hc2' : c2 < g.n := hc2
    have hbr' : r1 / sqrtN g = r2 / sqrtN g := hbr
    have hbc' : c1 / sqrtN g = c2 / sqrtN g := hbc
    rw [hget r1 c1 hc1', hget r2 c2 hc2'] at *
    by_cases h1 : r1 = r ∧ c1 = c
    · rw [if_pos h1]
      have h2 : ¬ (r2 = r ∧ c2 = c) := by
        intro h2
        rcases h1 with ⟨ha, hb⟩
        rcases h2 with ⟨hc3, hd3⟩
        rcases hne with h' | h'
        · exact h' (ha.trans hc3.symm)
        · exact h' (hb.trans hd3.symm)
      rw [if_neg h2]
      intro he
      rcases h1 with ⟨ha, hb⟩
      subst ha
      subst hb
      have hr2d : r1 / sqrtN g * sqrtN g + r2 % sqrtN g = r2 := by
        rw [hbr']
        exact box_coord_decomp (sqrtN g) r2 hsr
      have hc2d : c1 / sqrtN g * sqrtN g + c2 % sqrtN g = c2 := by
        rw [hbc']
        exact box_coord_decomp (sqrtN g) c2 hsr
      have := hbox' (r2 % sqrtN g) (Nat.mod_lt r2 hsr) (c2 % sqrtN g)
        (Nat.mod_lt c2 hsr) (by rw [hr2d]; exact hr2') (by rw [hc2d]; exact hc2')
      rw [hr2d, hc2d] at this
      exact this he.symm
    · rw [if_neg h1] at *
      by_cases h2 : r2 = r ∧ c2 = c
      · rw [if_pos h2]
        rcases h2 with ⟨ha, hb⟩
        subst ha
        subst hb
        have hr1d : r2 / sqrtN g * sqrtN g + r1 % sqrtN g = r1 := by
          rw [← hbr']
          exact box_coord_decomp (sqrtN g) r1 hsr
        have hc1d : c2 / sqrtN g * sqrtN g + c1 % sqrtN g = c1 := by
          rw [← hbc']
          exact box_coord_decomp (sqrtN g) c1 hsr
        have := hbox' (r1 % sqrtN g) (Nat.mod_lt r1 hsr) (c1 % sqrtN g)
          (Nat.mod_lt c1 hsr) (by rw [hr1d]; exact hr1') (by rw [hc1d]; exact hc1')
        rw [hr1d, hc1d] at this
        exact this
      · rw [if_neg h2]
        exact hcons.2.2 r1 hr1' c1 hc1' r2 hr2' c2 hc2' hbr' hbc' hne hnz

theorem consistent_setCell_zero (g : Sudoku) (r c : Nat) (hwf : WF g)
    (hcons : Consistent g) (hr : r < g.n) (hc : c < g.n) :
    Consistent (setCell g r c 0) := by
  have hget : ∀ r1 c1, c1 < g.n →
      getCell (setCell g r c 0) r1 c1 =
        if r1 = r ∧ c1 = c then 0 else getCell g r1 c1 := by
    intro r1 c1 hc1
    by_cases h : r1 = r ∧ c1 = c
    · rcases h with ⟨h1, h2⟩
      subst h1
      subst h2
      rw [if_pos ⟨rfl, rfl⟩]
      exact getCell_setCell_self g r1 c1 0 hwf hr hc
    · rw [if_neg h]
      push_neg at h
      refine getCell_setCell_ne g r c r1 c1 0 hc hc1 ?_
      by_cases h1 : r1 = r
      · exact Or.inr (fun he => (h h1) he.symm)
      · exact Or.inl (fun he => h1 he.symm)
  refine ⟨?_, ?_, ?_⟩
  · intro r1 hr1 c1 hc1 c2 hc2 hne hnz
    have hc1' : c1 < g.n := hc1
    have hc2' : c2 < g.n := hc2
    rw [hget r1 c1 hc1', hget r1 c2 hc2'] at *
    by_cases h1 : r1 = r ∧ c1 = c
    · rw [if_pos h1] at hnz
      exact absurd rfl hnz
    · rw [if_neg h1] at *
      by_cases h2 : r1 = r ∧ c2 = c
      · rw [if_pos h2]
        exact hnz
      · rw [if_neg h2]
        exact hcons.1 r1 hr1 c1 hc1' c2 hc2' hne hnz
  · intro c1 hc1 r1 hr1 r2 hr2 hne hnz
    have hc1' : c1 < g.n := hc1
    rw [hget r1 c1 hc1', hget r2 c1 hc1'] at *
    by_cases h1 : r1 = r ∧ c1 = c
    · rw [if_pos h1] at hnz
      exact absurd rfl hnz
    · rw [if_neg h1] at *
      by_cases h2 : r2 = r ∧ c1 = c
      · rw [if_pos h2]
        exact hnz
      · rw [if_neg h2]
        exact hcons.2.1 c1 hc1' r1 hr1 r2 hr2 hne hnz
  · intro r1 hr1 c1 hc1 r2 hr2 c2 hc2 hbr hbc hne hnz
    have hc1' : c1 < g.n := hc1
    have hc2' : c2 < g.n := hc2
    rw [hget r1 c1 hc1', hget r2 c2 hc2'] at *
    by_cases h1 : r1 = r ∧ c1 = c
    · rw [if_pos h1] at hnz
      exact absurd rfl hnz
    · rw [if_neg h1] at *
      by_cases h2 : r2 = r ∧ c2 = c
      · rw [if_pos h2]
        exact hnz
      · rw [if_neg h2]
        exact hcons.2.2 r1 hr1 c1 hc1' r2 hr2 c2 hc2' hbr hbc hne hnz

theorem completion_unsetCell (s g : Sudoku) (r c d : Nat)
    (hz : getCell g r c = 0) (hc : c < g.n)
    (h : Completion s (setCell g r c d)) : Completion s g := by
  rcases h with ⟨hwf, hcm, hcons, hrange, hn, hext⟩
  refine ⟨hwf, hcm, hcons, hrange, hn, ?_⟩
  intro r1 hr1 c1 hc1 hnz
  by_cases he : r1 = r ∧ c1 = c
  · rcases he with ⟨he1, he2⟩
    subst he1
    subst he2
    exact absurd hz hnz
  · push_neg at he
    have hne : r ≠ r1 ∨ c ≠ c1 := by
      by_cases h1 : r1 = r
      · exact Or.inr (fun hx => (he h1) hx.symm)
      · exact Or.inl (fun hx => h1 hx.symm)
    have hg : getCell (setCell g r c d) r1 c1 = getCell g r1 c1 :=
      getCell_setCell_ne g r c r1 c1 d hc hc1 hne
    have := hext r1 hr1 c1 hc1 (by rw [hg]; exact hnz)
    rw [hg] at this
    exact this

theorem completion_toSetCell (s g : Sudoku) (r c d : Nat) (hwf : WF g)
    (hr : r < g.n) (hc : c < g.n) (hd : getCell s r c = d)
    (h : Completion s g) : Completion s (setCell g r c d) := by
  rcases h with ⟨hwfs, hcm, hcons, hrange, hn, hext⟩
  refine ⟨hwfs, hcm, hcons, hrange, hn, ?_⟩
  intro r1 hr1 c1 hc1 hnz
  by_cases he : r1 = r ∧ c1 = c
  · rcases he with ⟨he1, he2⟩
    subst he1
    subst he2
    rw [getCell_setCell_self g r1 c1 d hwf hr hc]
    exact hd
  · push_neg at he
    have hne : r ≠ r1 ∨ c ≠ c1 := by
      by_cases h1 : r1 = r
      · exact Or.inr (fun hx => (he h1) hx.symm)
      · exact Or.inl (fun hx => h1 hx.symm)
    have hg : getCell (setCell g r c d) r1 c1 = getCell g r1 c1 :=
      getCell_setCell_ne g r c r1 c1 d hc hc1 hne
    rw [hg] at hnz ⊢
    exact hext r1 hr1 c1 hc1 hnz

theorem completion_digit_mem_candidates (s g : Sudoku) (r c : Nat)
    (_hwf : WF g) (_hsq : SquareN g) (hr : r < g.n) (hc : c < g.n)
    (hz : getCell g r c = 0) (h : Completion s g) :
    getCell s r c ∈ candidates g r c := by
  rcases h with ⟨hwfs, hcm, hcons, hrange, hn, hext⟩
  have hsn : s.n = g.n := hn
  have hidx : r * s.n + c < s.cells.length := by
    rw [hwfs, hsn]
    exact idx_lt g.n r c hr hc
  have hd0 : getCell s r c ≠ 0 := complete_ne_zero s r c hcm hidx
  have hdle : getCell s r c ≤ g.n := by
    rw [← hsn]
    exact getCell_le s r c hrange
  have hsq' : sqrtN s = sqrtN g := sqrtN_congr s g hsn
  rw [mem_candidates]
  refine ⟨by omega, hdle, ?_⟩
  rw [isSafe_iff]
  refine ⟨?_, ?_, ?_⟩
  · rw [rowSafe_iff]
    intro c1 hc1 he
    have hnz : getCell g r c1 ≠ 0 := by
      rw [he]
      exact hd0
    have hs1 : getCell s r c1 = getCell g r c1 := hext r hr c1 hc1 hnz
    have hcc : c ≠ c1 := by
      intro hcc
      rw [← hcc] at he
      rw [hz] at he
      exact hd0 he.symm
    have := hcons.1 r (by omega) c (by omega) c1 (by omega) hcc hd0
    exact this (by rw [hs1, he])
  · rw [colSafe_iff]
    intro r1 hr1 he
    have hnz : getCell g r1 c ≠ 0 := by
      rw [he]
      exact hd0
    have hs1 : getCell s r1 c = getCell g r1 c := hext r1 hr1 c hc hnz
    have hrr : r ≠ r1 := by
      intro hrr
      rw [← hrr] at he
      rw [hz] at he
      exact hd0 he.symm
    have := hcons.2.1 c (by omega) r (by omega) r1 (by omega) hrr hd0
    exact this (by rw [hs1, he])
  · rw [boxSafe_iff]
    intro i hi j hj hri hcj he
    set r1 := r / sqrtN g * sqrtN g + i with hr1def
    set c1 := c / sqrtN g * sqrtN g + j with hc1def
    have hnz : getCell g r1 c1 ≠ 0 := by
      rw [he]
      exact hd0
    have hs1 : getCell s r1 c1 = getCell g r1 c1 := hext r1 hri c1 hcj hnz
    have hbr : r / sqrtN s = r1 / sqrtN s := by
      rw [hsq', hr1def]
      exact (box_coord_div (sqrtN g) r i hi).symm
    have hbc : c / sqrtN s = c1 / sqrtN s := by
      rw [hsq', hc1def]
      exact (box_coord_div (sqrtN g) c j hj).symm
    have hnep : r ≠ r1 ∨ c ≠ c1 := by
      by_contra hcon
      push_neg at hcon
      rcases hcon with ⟨h1, h2⟩
      rw [← h1, ← h2] at he
      rw [hz] at he
      exact hd0 he.symm
    have := hcons.2.2 r (by omega) c (by omega) r1 (by omega) c1 (by omega)
      hbr hbc hnep hd0
    exact this (by rw [hs1, he])

theorem completion_of_complete (s g : Sudoku) (hwf : WF g) (hcm : Complete g)
    (h : Completion s g) : s = g := by
  rcases h with ⟨hwfs, _, _, _, hn, hext⟩
  have hcells : s.cells = g.cells := by
    refine list_ext_getD s.cells g.cells (by rw [hwfs, hwf, hn]) ?_
    intro i hi
    have hlen : i < g.cells.length := by
      rw [hwf]
      rw [hwfs, hn] at hi
      exact hi
    have hn0 : 0 < g.n := by
      rw [hwf] at hlen
      by_contra h0
      have he : g.n = 0 := by omega
      rw [he] at hlen
      simp at hlen
    have hr : i / g.n < g.n := by
      rw [hwf] at hlen
      exact (Nat.div_lt_iff_lt_mul hn0).mpr hlen
    have hcdef : i % g.n < g.n := Nat.mod_lt i hn0
    have hdec : i / g.n * g.n + i % g.n = i := by
      rw [Nat.mul_comm]
      exact Nat.div_add_mod i g.n
    have hnz : getCell g (i / g.n) (i % g.n) ≠ 0 :=
      complete_ne_zero g _ _ hcm (by rw [hdec]; exact hlen)
    have := hext (i / g.n) hr (i % g.n) hcdef hnz
    unfold getCell at this
    rw [hn, hdec] at this
    exact this
  cases s with
  | mk sn scells =>
    cases g with
    | mk gn gcells =>
      simp only at hn hcells
      rw [hn, hcells]

theorem completion_self (g : Sudoku) (hwf : WF g) (hcm : Complete g)
    (hcons : Consistent g) (hrange : InRange g) : Completion g g :=
  ⟨hwf, hcm, hcons, hrange, rfl, fun _ _ _ _ _ => rfl⟩

theorem solveAux_zero (sh : Sudoku → List Nat → List Nat) (g : Sudoku) :
    solveAux sh 0 g = (none, g) := rfl

theorem solveAux_succ (sh : Sudoku → List Nat → List Nat) (fuel : Nat) (g : Sudoku) :
    solveAux sh (fuel + 1) g =
      match findEmpty g with
      | none => (some g, g)
      | some (r, c) =>
        solveCell (solveAux sh fuel) r c (sh g (candidates g r c)) g := rfl

theorem solveAux_succ_none (sh : Sudoku → List Nat → List Nat) (fuel : Nat)
    (g : Sudoku) (hfe : findEmpty g = none) :
    solveAux sh (fuel + 1) g = (some g, g) := by
  rw [solveAux_succ, hfe]

theorem solveAux_succ_some (sh : Sudoku → List Nat → List Nat) (fuel : Nat)
    (g : Sudoku) (r c : Nat) (hfe : findEmpty g = some (r, c)) :
    solveAux sh (fuel + 1) g =
      solveCell (solveAux sh fuel) r c (sh g (candidates g r c)) g := by
  rw [solveAux_succ, hfe]

theorem foldl_solveStep_some (solve : Sudoku → Option Sudoku × Sudoku)
    (r c : Nat) (s : Sudoku) :
    ∀ (cands : List Nat) (h : Sudoku),
      cands.foldl (solveStep solve r c) (some s, h) = (some s, h) := by
  intro cands
  induction cands with
  | nil => intro h; rfl
  | cons d ds ih => intro h; simpa [solveStep] using ih h

theorem foldl_solveStep_none (solve : Sudoku → Option Sudoku × Sudoku)
    (hrest : ∀ h h2, solve h = (none, h2) → h2 = h) (r c : Nat) :
    ∀ (cands : List Nat) (g0 g2 : Sudoku),
      cands.foldl (solveStep solve r c) (none, g0) = (none, g2) →
      g2 = g0 ∨ ∃ d, g2 = setCell g0 r c d := by
  intro cands
  induction cands with
  | nil =>
    intro g0 g2 h
    simp only [List.foldl_nil] at h
    exact Or.inl (by injection h with h1 h2; exact h2.symm)
  | cons d ds ih =>
    intro g0 g2 h
    simp only [List.foldl_cons] at h
    rcases hsolve : solve (setCell g0 r c d) with ⟨res, h2⟩
    cases res with
    | some s =>
      rw [show solveStep solve r c (none, g0) d = (some s, h2) by
        simpa [solveStep] using hsolve] at h
      rw [foldl_solveStep_some solve r c s ds h2] at h
      exact absurd (congrArg Prod.fst h) (by simp)
    | none =>
      have hst : h2 = setCell g0 r c d := hrest _ _ hsolve
      rw [show solveStep solve r c (none, g0) d = (none, h2) by
        simpa [solveStep] using hsolve] at h
      rcases ih h2 g2 h with h' | ⟨d', h'⟩
      · exact Or.inr ⟨d, by rw [h', hst]⟩
      · refine Or.inr ⟨d', ?_⟩
        rw [h', hst, setCell_setCell]

theorem foldl_solveStep_success (solve : Sudoku → Option Sudoku × Sudoku)
    (hrest : ∀ h h2, solve h = (none, h2) → h2 = h) (r c : Nat) (s : Sudoku) :
    ∀ (cands : List Nat) (g0 g2 : Sudoku),
      cands.foldl (solveStep solve r c) (none, g0) = (some s, g2) →
      ∃ d ∈ cands, solve (setCell g0 r c d) = (some s, g2) := by
  intro cands
  induction cands with
  | nil =>
    intro g0 g2 h
    simp only [List.foldl_nil] at h
    exact absurd (congrArg Prod.fst h) (by simp)
  | cons d ds ih =>
    intro g0 g2 h
    simp only [List.foldl_cons] at h
    rcases hsolve : solve (setCell g0 r c d) with ⟨res, h2⟩
    cases res with
    | some s' =>
      rw [show solveStep solve r c (none, g0) d = (some s', h2) by
        simpa [solveStep] using hsolve] at h
      rw [foldl_solveStep_some solve r c s' ds h2] at h
      injection h with h1 h2'
      injection h1 with h1
      exact ⟨d, List.mem_cons_self d ds, by rw [hsolve, h1, h2']⟩
    | none =>
      have hst : h2 = setCell g0 r c d := hrest _ _ hsolve
      rw [show solveStep solve r c (none, g0) d = (none, h2) by
        simpa [solveStep] using hsolve] at h
      rcases ih h2 g2 h with ⟨d', hd', hsol⟩
      refine ⟨d', List.mem_cons_of_mem d hd', ?_⟩
      rw [← hsol, hst, setCell_setCell]

theorem foldl_solveStep_exists (solve : Sudoku → Option Sudoku × Sudoku)
    (hrest : ∀ h h2, solve h = (none, h2) → h2 = h) (r c : Nat) :
    ∀ (cands : List Nat) (g0 : Sudoku),
      (∃ d ∈ cands, (solve (setCell g0 r c d)).1.isSome) →
      (cands.foldl (solveStep solve r c) (none, g0)).1.isSome := by
  intro cands
  induction cands with
  | nil =>
    intro g0 h
    simp at h
  | cons d ds ih =>
    intro g0 hex
    simp only [List.foldl_cons]
    rcases hsolve : solve (setCell g0 r c d) with ⟨res, h2⟩
    cases res with
    | some s =>
      rw [show solveStep solve r c (none, g0) d = (some s, h2) by
        simpa [solveStep] using hsolve]
      rw [foldl_solveStep_some solve r c s ds h2]
      simp
    | none =>
      have hst : h2 = setCell g0 r c d := hrest _ _ hsolve
      rw [show solveStep solve r c (none, g0) d = (none, h2) by
        simpa [solveStep] using hsolve]
      refine ih h2 ?_
      rcases hex with ⟨d', hd', hsome⟩
      rcases List.mem_cons.mp hd' with he | hm
      · rw [he] at hsome
        rw [hsolve] at hsome
        simp at hsome
      · refine ⟨d', hm, ?_⟩
        rw [hst, setCell_setCell]
        exact hsome

theorem solveAux_restore (sh : Sudoku → List Nat → List Nat) :
    ∀ (fuel : Nat) (g g2 : Sudoku), solveAux sh fuel g = (none, g2) → g2 = g := by
  intro fuel
  induction fuel with
  | zero =>
    intro g g2 h
    rw [solveAux_zero] at h
    injection h with h1 h2
    exact h2.symm
  | succ fuel ih =>
    intro g g2 h
    rcases hfe : findEmpty g with _ | ⟨r, c⟩
    · rw [solveAux_succ_none sh fuel g hfe] at h
      simp at h
    · rw [solveAux_succ_some sh fuel g r c hfe] at h
      unfold solveCell at h
      rcases hfold : (sh g (candidates g r c)).foldl
          (solveStep (solveAux sh fuel) r c) (none, g) with ⟨res, hmid⟩
      cases res with
      | some s =>
        rw [hfold] at h
        simp at h
      | none =>
        rw [hfold] at h
        simp only at h
        injection h with h1 h2
        rcases findEmpty_some_spec g r c hfe with ⟨hz, hlt⟩
        have hres := foldl_solveStep_none (solveAux sh fuel)
          (fun a b hb => ih a b hb) r c _ g hmid hfold
        rcases hres with h' | ⟨d, h'⟩
        · rw [← h2, h', setCell_self_zero g r c hz hlt.1]
        · rw [← h2, h', setCell_setCell, setCell_self_zero g r c hz hlt.1]

theorem solveAux_alias (sh : Sudoku → List Nat → List Nat) :
    ∀ (fuel : Nat) (g s g2 : Sudoku), solveAux sh fuel g = (some s, g2) → g2 = s := by
  intro fuel
  induction fuel with
  | zero =>
    intro g s g2 h
    rw [solveAux_zero] at h
    exact absurd (congrArg Prod.fst h) (by simp)
  | succ fuel ih =>
    intro g s g2 h
    rcases hfe : findEmpty g with _ | ⟨r, c⟩
    · rw [solveAux_succ_none sh fuel g hfe] at h
      injection h with h1 h2
      injection h1 with h1
      rw [← h2]
      exact h1
    · rw [solveAux_succ_some sh fuel g r c hfe] at h
      unfold solveCell at h
      rcases hfold : (sh g (candidates g r c)).foldl
          (solveStep (solveAux sh fuel) r c) (none, g) with ⟨res, hmid⟩
      cases res with
      | none =>
        rw [hfold] at h
        simp at h
      | some s' =>
        rw [hfold] at h
        simp only at h
        injection h with h1 h2
        injection h1 with h1
        rcases foldl_solveStep_success (solveAux sh fuel)
          (fun a b hb => solveAux_restore sh fuel a b hb) r c s' _ g hmid hfold with
          ⟨d, _, hsol⟩
        rw [← h2, ← h1]
        exact ih _ _ _ hsol

theorem solveAux_sound (sh : Sudoku → List Nat → List Nat) (hsh : ShValid sh) :
    ∀ (fuel : Nat) (g s g2 : Sudoku), WF g → SquareN g → Consistent g →
      InRange g → solveAux sh fuel g = (some s, g2) → Completion s g := by
  intro fuel
  induction fuel with
  | zero =>
    intro g s g2 _ _ _ _ h
    rw [solveAux_zero] at h
    exact absurd (congrArg Prod.fst h) (by simp)
  | succ fuel ih =>
    intro g s g2 hwf hsq hcons hrange h
    rcases hfe : findEmpty g with _ | ⟨r, c⟩
    · rw [solveAux_succ_none sh fuel g hfe] at h
      injection h with h1 h2
      injection h1 with h1
      rw [← h1]
      exact completion_self g hwf ((findEmpty_none_iff g).mp hfe) hcons hrange
    · rw [solveAux_succ_some sh fuel g r c hfe] at h
      unfold solveCell at h
      rcases hfold : (sh g (candidates g r c)).foldl
          (solveStep (solveAux sh fuel) r c) (none, g) with ⟨res, hmid⟩
      cases res with
      | none =>
        rw [hfold] at h
        simp at h
      | some s' =>
        rw [hfold] at h
        simp only at h
        injection h with h1 h2
        injection h1 with h1
        rcases foldl_solveStep_success (solveAux sh fuel)
          (fun a b hb => solveAux_restore sh fuel a b hb) r c s' _ g hmid hfold with
          ⟨d, hdmem, hsol⟩
        have hdc : d ∈ candidates g r c := ((hsh g _).mem_iff).mp hdmem
        rcases (mem_candidates g r c d).mp hdc with ⟨hd1, hd2, hdsafe⟩
        rcases findEmpty_some_bounds g r c hwf hfe with ⟨hr, hc⟩
        have hz := (findEmpty_some_spec g r c hfe).1
        have hcomp : Completion s' (setCell g r c d) :=
          ih (setCell g r c d) s' hmid (WF_setCell g r c d hwf) hsq
            (consistent_setCell g r c d hwf hsq hcons hr hc hz hdsafe (by omega))
            (InRange_setCell g r c d hrange hd2) hsol
        rw [← h1]
        exact completion_unsetCell s' g r c d hz hc hcomp

theorem solveAux_complete (sh : Sudoku → List Nat → List Nat) (hsh : ShValid sh) :
    ∀ (fuel : Nat) (g : Sudoku), WF g → SquareN g → Consistent g → InRange g →
      countZeros g < fuel → (∃ s, Completion s g) →
      (solveAux sh fuel g).1.isSome := by
  intro fuel
  induction fuel with
  | zero =>
    intro g _ _ _ _ hfuel _
    omega
  | succ fuel ih =>
    intro g hwf hsq hcons hrange hfuel hex
    rcases hfe : findEmpty g with _ | ⟨r, c⟩
    · rw [solveAux_succ_none sh fuel g hfe]
      simp
    · rw [solveAux_succ_some sh fuel g r c hfe]
      rcases hex with ⟨s, hs⟩
      rcases findEmpty_some_bounds g r c hwf hfe with ⟨hr, hc⟩
      have hz := (findEmpty_some_spec g r c hfe).1
      have hlt := (findEmpty_some_spec g r c hfe).2.1
      have hdc : getCell s r c ∈ candidates g r c :=
        completion_digit_mem_candidates s g r c hwf hsq hr hc hz hs
      rcases (mem_candidates g r c _).mp hdc with ⟨hd1, hd2, hdsafe⟩
      have hdmem : getCell s r c ∈ sh g (candidates g r c) :=
        ((hsh g _).mem_iff).mpr hdc
      have hdec := countZeros_setCell_dec g r c (getCell s r c) hz hlt (by omega)
      have hrec : (solveAux sh fuel (setCell g r c (getCell s r c))).1.isSome := by
        refine ih (setCell g r c (getCell s r c)) (WF_setCell g r c _ hwf) hsq
          (consistent_setCell g r c _ hwf hsq hcons hr hc hz hdsafe (by omega))
          (InRange_setCell g r c _ hrange hd2) (by omega) ?_
        exact ⟨s, completion_toSetCell s g r c _ hwf hr hc rfl hs⟩
      have hfold := foldl_solveStep_exists (solveAux sh fuel)
        (fun a b hb => solveAux_restore sh fuel a b hb) r c
        (sh g (candidates g r c)) g ⟨getCell s r c, hdmem, hrec⟩
      unfold solveCell
      rcases hfr : (sh g (candidates g r c)).foldl
          (solveStep (solveAux sh fuel) r c) (none, g) with ⟨res, hmid⟩
      cases res with
      | none =>
        rw [hfr] at hfold
        simp at hfold
      | some s' =>
        simp

theorem solveInplace_correct (sh : Sudoku → List Nat → List Nat)
    (hsh : ShValid sh) (g : Sudoku) (hInv : Inv g) :
    ((solveInplace sh g).1.isSome ↔ ∃ s, Completion s g) ∧
    (∀ s g2, solveInplace sh g = (some s, g2) → g2 = s ∧ Completion s g) ∧
    (∀ g2, solveInplace sh g = (none, g2) → g2 = g) := by
  rcases hInv with ⟨hwf, hsq, hcons, hrange⟩
  refine ⟨⟨?_, ?_⟩, ?_, ?_⟩
  · intro hsome
    rcases hres : solveInplace sh g with ⟨res, g2⟩
    cases res with
    | none => rw [hres] at hsome; simp at hsome
    | some s =>
      exact ⟨s, solveAux_sound sh hsh (countZeros g + 1) g s g2 hwf hsq hcons hrange hres⟩
  · intro hex
    exact solveAux_complete sh hsh (countZeros g + 1) g hwf hsq hcons hrange
      (Nat.lt_succ_self _) hex
  · intro s g2 hres
    exact ⟨solveAux_alias sh (countZeros g + 1) g s g2 hres,
      solveAux_sound sh hsh (countZeros g + 1) g s g2 hwf hsq hcons hrange hres⟩
  · intro g2 hres
    exact solveAux_restore sh (countZeros g + 1) g g2 hres

theorem mkCopy_eq (g : Sudoku) : mkCopy g = g := rfl

theorem solveAllHelper_zero (g : Sudoku) (sols : List Sudoku) :
    solveAllHelper 0 g sols = (sols, g) := rfl

theorem solveAllHelper_succ_none (fuel : Nat) (g : Sudoku) (sols : List Sudoku)
    (hfe : findEmpty g = none) :
    solveAllHelper (fuel + 1) g sols = (insertSol sols g, g) := by
  show (match findEmpty g with
    | none => (insertSol sols g, g)
    | some (r, c) =>
      ((candidates g r c).foldl
        (fun acc d => (solveAllHelper fuel (setCell (mkCopy g) r c d) acc).1) sols, g)) =
    (insertSol sols g, g)
  rw [hfe]

theorem solveAllHelper_succ_some (fuel : Nat) (g : Sudoku) (sols : List Sudoku)
    (r c : Nat) (hfe : findEmpty g = some (r, c)) :
    solveAllHelper (fuel + 1) g sols =
      ((candidates g r c).foldl
        (fun acc d => (solveAllHelper fuel (setCell (mkCopy g) r c d) acc).1) sols, g) := by
  show (match findEmpty g with
    | none => (insertSol sols g, g)
    | some (r, c) =>
      ((candidates g r c).foldl
        (fun acc d => (solveAllHelper fuel (setCell (mkCopy g) r c d) acc).1) sols, g)) = _
  rw [hfe]

theorem solveAllHelper_snd : ∀ (fuel : Nat) (g : Sudoku) (sols : List Sudoku),
    (solveAllHelper fuel g sols).2 = g := by
  intro fuel g sols
  cases fuel with
  | zero => rfl
  | succ fuel =>
    rcases hfe : findEmpty g with _ | ⟨r, c⟩
    · rw [solveAllHelper_succ_none fuel g sols hfe]
    · rw [solveAllHelper_succ_some fuel g sols r c hfe]

theorem mem_insertSol (sols : List Sudoku) (s x : Sudoku) :
    x ∈ insertSol sols s ↔ x ∈ sols ∨ x = s := by
  unfold insertSol
  by_cases h : s ∈ sols
  · rw [if_pos h]
    constructor
    · exact Or.inl
    · rintro (hx | hx)
      · exact hx
      · rw [hx]; exact h
  · rw [if_neg h]
    simp

theorem foldl_sa_mono (F : Nat → List Sudoku → List Sudoku)
    (hF : ∀ d sols x, x ∈ sols → x ∈ F d sols) :
    ∀ (cands : List Nat) (sols : List Sudoku) (x : Sudoku), x ∈ sols →
      x ∈ cands.foldl (fun acc d => F d acc) sols := by
  intro cands
  induction cands with
  | nil => intro sols x hx; simpa using hx
  | cons d ds ih =>
    intro sols x hx
    simp only [List.foldl_cons]
    exact ih (F d sols) x (hF d sols x hx)

theorem foldl_sa_sound (F : Nat → List Sudoku → List Sudoku)
    (Q : Nat → Sudoku → Prop) :
    ∀ (cands : List Nat),
      (∀ d ∈ cands, ∀ sols x, x ∈ F d sols → x ∈ sols ∨ Q d x) →
      ∀ (sols : List Sudoku) (x : Sudoku),
        x ∈ cands.foldl (fun acc d => F d acc) sols →
        x ∈ sols ∨ ∃ d ∈ cands, Q d x := by
  intro cands
  induction cands with
  | nil =>
    intro _ sols x hx
    exact Or.inl (by simpa using hx)
  | cons d ds ih =>
    intro hF sols x hx
    simp only [List.foldl_cons] at hx
    rcases ih (fun d' hd' => hF d' (List.mem_cons_of_mem d hd')) (F d sols) x hx with
      h | ⟨d', hd', hq⟩
    · rcases hF d (List.mem_cons_self d ds) sols x h with h' | h'
      · exact Or.inl h'
      · exact Or.inr ⟨d, List.mem_cons_self d ds, h'⟩
    · exact Or.inr ⟨d', List.mem_cons_of_mem d hd', hq⟩

theorem foldl_sa_reach (F : Nat → List Sudoku → List Sudoku)
    (hmono : ∀ d sols x, x ∈ sols → x ∈ F d sols) (s : Sudoku) :
    ∀ (cands : List Nat) (d : Nat), d ∈ cands → (∀ sols, s ∈ F d sols) →
      ∀ sols : List Sudoku, s ∈ cands.foldl (fun acc d => F d acc) sols := by
  intro cands
  induction cands with
  | nil => intro d hd; simp at hd
  | cons d0 ds ih =>
    intro d hd hall sols
    simp only [List.foldl_cons]
    rcases List.mem_cons.mp hd with he | hm
    · subst he
      exact foldl_sa_mono F hmono ds (F d sols) s (hall sols)
    · exact ih d hm hall (F d0 sols)

theorem solveAllHelper_mono : ∀ (fuel : Nat) (g : Sudoku) (sols : List Sudoku)
    (x : Sudoku), x ∈ sols → x ∈ (solveAllHelper fuel g sols).1 := by
  intro fuel
  induction fuel with
  | zero => intro g sols x hx; exact hx
  | succ fuel ih =>
    intro g sols x hx
    rcases hfe : findEmpty g with _ | ⟨r, c⟩
    · rw [solveAllHelper_succ_none fuel g sols hfe]
      exact (mem_insertSol sols g x).mpr (Or.inl hx)
    · rw [solveAllHelper_succ_some fuel g sols r c hfe]
      exact foldl_sa_mono (fun d acc => (solveAllHelper fuel (setCell (mkCopy g) r c d) acc).1)
        (fun d acc y hy => ih (setCell (mkCopy g) r c d) acc y hy)
        (candidates g r c) sols x hx

theorem solveAllHelper_sound : ∀ (fuel : Nat) (g : Sudoku) (sols : List Sudoku)
    (x : Sudoku), WF g → SquareN g → Consistent g → InRange g →
      x ∈ (solveAllHelper fuel g sols).1 → x ∈ sols ∨ Completion x g := by
  intro fuel
  induction fuel with
  | zero => intro g sols x _ _ _ _ hx; exact Or.inl hx
  | succ fuel ih =>
    intro g sols x hwf hsq hcons hrange hx
    rcases hfe : findEmpty g with _ | ⟨r, c⟩
    · rw [solveAllHelper_succ_none fuel g sols hfe] at hx
      rcases (mem_insertSol sols g x).mp hx with h | h
      · exact Or.inl h
      · rw [h]
        exact Or.inr (completion_self g hwf ((findEmpty_none_iff g).mp hfe) hcons hrange)
    · rw [solveAllHelper_succ_some fuel g sols r c hfe] at hx
      rcases findEmpty_some_bounds g r c hwf hfe with ⟨hr, hc⟩
      have hz := (findEmpty_some_spec g r c hfe).1
      have hstep := foldl_sa_sound
        (fun d acc => (solveAllHelper fuel (setCell (mkCopy g) r c d) acc).1)
        (fun d y => Completion y (setCell g r c d))
        (candidates g r c) ?_ sols x hx
      · rcases hstep with h | ⟨d, hd, hcomp⟩
        · exact Or.inl h
        · exact Or.inr (completion_unsetCell x g r c d hz hc hcomp)
      · intro d hd acc y hy
        rcases (mem_candidates g r c d).mp hd with ⟨hd1, hd2, hdsafe⟩
        rw [mkCopy_eq] at hy
        exact ih (setCell g r c d) acc y (WF_setCell g r c d hwf) hsq
          (consistent_setCell g r c d hwf hsq hcons hr hc hz hdsafe (by omega))
          (InRange_setCell g r c d hrange hd2) hy

theorem solveAllHelper_complete : ∀ (fuel : Nat) (g : Sudoku) (sols : List Sudoku)
    (s : Sudoku), WF g → SquareN g → Consistent g → InRange g →
      countZeros g < fuel → Completion s g → s ∈ (solveAllHelper fuel g sols).1 := by
  intro fuel
  induction fuel with
  | zero => intro g sols s _ _ _ _ hfuel _; omega
  | succ fuel ih =>
    intro g sols s hwf hsq hcons hrange hfuel hcomp
    rcases hfe : findEmpty g with _ | ⟨r, c⟩
    · rw [solveAllHelper_succ_none fuel g sols hfe]
      have := completion_of_complete s g hwf ((findEmpty_none_iff g).mp hfe) hcomp
      rw [this]
      exact (mem_insertSol sols g g).mpr (Or.inr rfl)
    · rw [solveAllHelper_succ_some fuel g sols r c hfe]
      rcases findEmpty_some_bounds g r c hwf hfe with ⟨hr, hc⟩
      have hz := (findEmpty_some_spec g r c hfe).1
      have hlt := (findEmpty_some_spec g r c hfe).2.1
      have hdc : getCell s r c ∈ candidates g r c :=
        completion_digit_mem_candidates s g r c hwf hsq hr hc hz hcomp
      rcases (mem_candidates g r c _).mp hdc with ⟨hd1, hd2, hdsafe⟩
      have hdec := countZeros_setCell_dec g r c (getCell s r c) hz hlt (by omega)
      refine foldl_sa_reach
        (fun d acc => (solveAllHelper fuel (setCell (mkCopy g) r c d) acc).1)
        (fun d acc y hy => solveAllHelper_mono fuel (setCell (mkCopy g) r c d) acc y hy)
        s (candidates g r c) (getCell s r c) hdc ?_ sols
      intro acc
      rw [mkCopy_eq]
      exact ih (setCell g r c (getCell s r c)) acc s (WF_setCell g r c _ hwf) hsq
        (consistent_setCell g r c _ hwf hsq hcons hr hc hz hdsafe (by omega))
        (InRange_setCell g r c _ hrange hd2) (by omega)
        (completion_toSetCell s g r c _ hwf hr hc rfl hcomp)

theorem solveAll_mem_iff (g : Sudoku) (hInv : Inv g) (s : Sudoku) :
    s ∈ (solveAll g).1 ↔ Completion s g := by
  rcases hInv with ⟨hwf, hsq, hcons, hrange⟩
  constructor
  · intro h
    rcases solveAllHelper_sound (countZeros g + 1) g [] s hwf hsq hcons hrange h with
      h' | h'
    · simp at h'
    · exact h'
  · intro h
    exact solveAllHelper_complete (countZeros g + 1) g [] s hwf hsq hcons hrange
      (Nat.lt_succ_self _) h

theorem getD_map_range (m : Nat) (f : Nat → Nat) (i : Nat) (h : i < m) :
    ((List.range m).map f).getD i 0 = f i := by
  rw [List.getD_eq_getElem _ _ (by simpa using h)]
  simp

theorem getCell_canonical (s r c : Nat) (hr : r < s * s) (hc : c < s * s) :
    getCell (canonical s) r c = canonCell s r c := by
  unfold getCell canonical
  simp only
  rw [getD_map_range _ _ _ (idx_lt (s * s) r c hr hc)]
  rw [idx_div (s * s) r c hc, idx_mod (s * s) r c hc]

theorem WF_canonical (s : Nat) : WF (canonical s) := by
  unfold WF canonical
  simp

theorem squareN_canonical (s : Nat) : SquareN (canonical s) := by
  unfold SquareN sqrtN canonical
  simp only
  rw [intSqrt_sq]

theorem sqrtN_canonical (s : Nat) : sqrtN (canonical s) = s := by
  unfold sqrtN canonical
  simp only
  exact intSqrt_sq s

theorem complete_canonical (s : Nat) : Complete (canonical s) := by
  unfold Complete canonical
  intro h
  simp only [List.mem_map] at h
  rcases h with ⟨i, _, hv⟩
  unfold canonCell at hv
  omega

theorem inRange_canonical (s : Nat) : InRange (canonical s) := by
  intro x hx
  simp only [canonical, List.mem_map] at hx
  rcases hx with ⟨i, hi, hv⟩
  simp only [List.mem_range] at hi
  have hs : 0 < s * s := by
    by_contra h0
    have : s * s = 0 := by omega
    rw [this] at hi
    simp at hi
  have : ((i / (s * s)) % s * s + i / (s * s) / s + i % (s * s)) % (s * s) < s * s :=
    Nat.mod_lt _ hs
  unfold canonCell at hv
  show x ≤ (canonical s).n
  have hn : (canonical s).n = s * s := rfl
  omega

theorem mul_succ_le (a s : Nat) (h : a < s) : a * s + s ≤ s * s := by
  have h1 : a + 1 ≤ s := h
  have h2 : (a + 1) * s ≤ s * s := Nat.mul_le_mul_right s h1
  have h3 : (a + 1) * s = a * s + s := by ring
  omega

theorem canonBase_lt (s r : Nat) (hs : 0 < s) (hr : r < s * s) :
    canonBase s r < s * s := by
  unfold canonBase
  have h1 : r % s < s := Nat.mod_lt r hs
  have h2 : r / s < s := (Nat.div_lt_iff_lt_mul hs).mpr hr
  have h3 := mul_succ_le (r % s) s h1
  omega

theorem canonBase_inj (s r r' : Nat) (hs : 0 < s) (hr : r < s * s) (hr' : r' < s * s)
    (h : canonBase s r = canonBase s r') : r = r' := by
  unfold canonBase at h
  have h1 : r / s < s := (Nat.div_lt_iff_lt_mul hs).mpr hr
  have h2 : r' / s < s := (Nat.div_lt_iff_lt_mul hs).mpr hr'
  rcases idx_inj s (r % s) (r / s) (r' % s) (r' / s) h1 h2 h with ⟨hm, hd⟩
  have hdm : r / s * s + r % s = r := box_coord_decomp s r hs
  have hdm' : r' / s * s + r' % s = r' := box_coord_decomp s r' hs
  rw [hm, hd] at hdm
  omega

theorem mod_cancel_of_lt (n a b : Nat) (ha : a < n) (hb : b < n)
    (h : a % n = b % n) : a = b := by
  rw [Nat.mod_eq_of_lt ha, Nat.mod_eq_of_lt hb] at h
  exact h

theorem consistent_canonical (s : Nat) : Consistent (canonical s) := by
  have hn : (canonical s).n = s * s := rfl
  have hsr : sqrtN (canonical s) = s := sqrtN_canonical s
  refine ⟨?_, ?_, ?_⟩
  · -- rows
    intro r hr c hc c' hc' hne _
    rw [hn] at hr hc hc'
    have hs : 0 < s := by
      by_contra h0
      have : s = 0 := by omega
      rw [this] at hr
      simp at hr
    rw [getCell_canonical s r c hr hc, getCell_canonical s r c' hr hc']
    unfold canonCell
    intro he
    have hmod : (canonBase s r + c) % (s * s) = (canonBase s r + c') % (s * s) := by
      unfold canonBase
      exact Nat.add_right_cancel he
    have : c % (s * s) = c' % (s * s) :=
      Nat.ModEq.add_left_cancel' (canonBase s r) hmod
    exact hne (mod_cancel_of_lt (s * s) c c' hc hc' this)
  · -- columns
    intro c hc r hr r' hr' hne _
    rw [hn] at hr hc hr'
    have hs : 0 < s := by
      by_contra h0
      have : s = 0 := by omega
      rw [this] at hc
      simp at hc
    rw [getCell_canonical s r c hr hc, getCell_canonical s r' c hr' hc]
    unfold canonCell
    intro he
    have hmod : (canonBase s r + c) % (s * s) = (canonBase s r' + c) % (s * s) := by
      unfold canonBase
      exact Nat.add_right_cancel he
    have : canonBase s r % (s * s) = canonBase s r' % (s * s) :=
      Nat.ModEq.add_right_cancel' c hmod
    exact hne (canonBase_inj s r r' hs hr hr'
      (mod_cancel_of_lt (s * s) _ _ (canonBase_lt s r hs hr) (canonBase_lt s r' hs hr') this))
  · -- boxes
    intro r hr c hc r' hr' c' hc' hbr hbc hne _
    rw [hn] at hr hc hr' hc'
    have hs : 0 < s := by
      by_contra h0
      have : s = 0 := by omega
      rw [this] at hr
      simp at hr
    rw [hsr] at hbr hbc
    rw [getCell_canonical s r c hr hc, getCell_canonical s r' c' hr' hc']
    unfold canonCell
    intro he
    have hdr : r / s * s + r % s = r := box_coord_decomp s r hs
    have hdr' : r' / s * s + r' % s = r' := box_coord_decomp s r' hs
    have hdc : c / s * s + c % s = c := box_coord_decomp s c hs
    have hdc' : c' / s * s + c' % s = c' := box_coord_decomp s c' hs
    have hmod : ((r % s) * s + c % s + (r / s + c / s * s)) % (s * s) =
        ((r' % s) * s + c' % s + (r' / s + c' / s * s)) % (s * s) := by
      have e1 : (r % s) * s + c % s + (r / s + c / s * s) = (r % s) * s + r / s + c := by
        omega
      have e2 : (r' % s) * s + c' % s + (r' / s + c' / s * s) =
          (r' % s) * s + r' / s + c' := by
        omega
      rw [e1, e2]
      exact Nat.add_right_cancel he
    rw [hbr, hbc] at hmod
    have hcan : ((r % s) * s + c % s) % (s * s) = ((r' % s) * s + c' % s) % (s * s) :=
      Nat.ModEq.add_right_cancel' (r' / s + c' / s * s) hmod
    have hx : (r % s) * s + c % s < s * s := by
      have h1 : r % s < s := Nat.mod_lt r hs
      have h2 : c % s < s := Nat.mod_lt c hs
      have h3 := mul_succ_le (r % s) s h1
      omega
    have hx' : (r' % s) * s + c' % s < s * s := by
      have h1 : r' % s < s := Nat.mod_lt r' hs
      have h2 : c' % s < s := Nat.mod_lt c' hs
      have h3 := mul_succ_le (r' % s) s h1
      omega
    have := mod_cancel_of_lt (s * s) _ _ hx hx' hcan
    rcases idx_inj s (r % s) (c % s) (r' % s) (c' % s)
      (Nat.mod_lt c hs) (Nat.mod_lt c' hs) this with ⟨hm1, hm2⟩
    rw [hbr, hm1] at hdr
    rw [hbc, hm2] at hdc
    rcases hne with h' | h'
    · exact h' (by omega)
    · exact h' (by omega)

theorem getCell_emptyGrid (n r c : Nat) : getCell (emptyGrid n) r c = 0 := by
  unfold getCell emptyGrid
  simp only
  by_cases h : r * n + c < n * n
  · rw [List.getD_eq_getElem _ _ (by simpa using h)]
    simp
  · exact list_getD_ge_len _ _ (by simpa using Nat.le_of_not_lt h)

theorem WF_emptyGrid (n : Nat) : WF (emptyGrid n) := by
  unfold WF emptyGrid
  simp

theorem consistent_emptyGrid (n : Nat) : Consistent (emptyGrid n) := by
  refine ⟨?_, ?_, ?_⟩
  · intro r _ c _ c' _ _ hnz
    exact absurd (getCell_emptyGrid n r c) hnz
  · intro c _ r _ r' _ _ hnz
    exact absurd (getCell_emptyGrid n r c) hnz
  · intro r _ c _ r' _ c' _ _ _ _ hnz
    exact absurd (getCell_emptyGrid n r c) hnz

theorem inRange_emptyGrid (n : Nat) : InRange (emptyGrid n) := by
  intro x hx
  rcases (List.mem_replicate).mp hx with ⟨_, hx0⟩
  rw [hx0]
  exact Nat.zero_le _

theorem squareN_emptyGrid (s : Nat) : SquareN (emptyGrid (s * s)) := by
  unfold SquareN sqrtN emptyGrid
  simp only
  rw [intSqrt_sq]

theorem inv_emptyGrid (s : Nat) : Inv (emptyGrid (s * s)) :=
  ⟨WF_emptyGrid _, squareN_emptyGrid s, consistent_emptyGrid _, inRange_emptyGrid _⟩

theorem completion_canonical_emptyGrid (s : Nat) :
    Completion (canonical s) (emptyGrid (s * s)) := by
  refine ⟨WF_canonical s, complete_canonical s, consistent_canonical s,
    inRange_canonical s, rfl, ?_⟩
  intro r _ c _ hnz
  exact absurd (getCell_emptyGrid (s * s) r c) hnz

theorem count_one_of_unit (L : List Nat) (n : Nat) (hlen : L.length = n)
    (hnd : L.Nodup) (hmem : ∀ x ∈ L, 1 ≤ x ∧ x ≤ n) :
    ∀ d, 1 ≤ d → d ≤ n → L.count d = 1 := by
  intro d hd1 hd2
  have hsub : L.toFinset ⊆ Finset.Icc 1 n := by
    intro x hx
    rw [List.mem_toFinset] at hx
    rcases hmem x hx with ⟨h1, h2⟩
    rw [Finset.mem_Icc]
    exact ⟨h1, h2⟩
  have hcard : (Finset.Icc 1 n).card ≤ L.toFinset.card := by
    rw [List.toFinset_card_of_nodup hnd, hlen, Nat.card_Icc]
    omega
  have heq := Finset.eq_of_subset_of_card_le hsub hcard
  have hdmem : d ∈ L.toFinset := by
    rw [heq, Finset.mem_Icc]
    exact ⟨hd1, hd2⟩
  rw [List.mem_toFinset] at hdmem
  exact List.count_eq_one_of_mem hnd hdmem

theorem rowValues_count (g : Sudoku) (hwf : WF g) (hcons : Consistent g)
    (hrange : InRange g) (hcm : Complete g) (r : Nat) (hr : r < g.n) :
    ∀ d, 1 ≤ d → d ≤ g.n → (rowValues g r).count d = 1 := by
  refine count_one_of_unit (rowValues g r) g.n (by simp [rowValues]) ?_ ?_
  · refine List.Nodup.map_on ?_ (List.nodup_range g.n)
    intro x hx y hy hxy
    rw [List.mem_range] at hx hy
    by_contra hne
    have hnz : getCell g r x ≠ 0 :=
      complete_ne_zero g r x hcm (by rw [hwf]; exact idx_lt g.n r x hr hx)
    exact hcons.1 r hr x hx y hy hne hnz hxy
  · intro x hx
    rcases List.mem_map.mp hx with ⟨a, ha, hv⟩
    rw [List.mem_range] at ha
    constructor
    · have hnz : getCell g r a ≠ 0 :=
        complete_ne_zero g r a hcm (by rw [hwf]; exact idx_lt g.n r a hr ha)
      omega
    · rw [← hv]
      exact getCell_le g r a hrange

theorem colValues_count (g : Sudoku) (hwf : WF g) (hcons : Consistent g)
    (hrange : InRange g) (hcm : Complete g) (c : Nat) (hc : c < g.n) :
    ∀ d, 1 ≤ d → d ≤ g.n → (colValues g c).count d = 1 := by
  refine count_one_of_unit (colValues g c) g.n (by simp [colValues]) ?_ ?_
  · refine List.Nodup.map_on ?_ (List.nodup_range g.n)
    intro x hx y hy hxy
    rw [List.mem_range] at hx hy
    by_contra hne
    have hnz : getCell g x c ≠ 0 :=
      complete_ne_zero g x c hcm (by rw [hwf]; exact idx_lt g.n x c hx hc)
    exact hcons.2.1 c hc x hx y hy hne hnz hxy
  · intro x hx
    rcases List.mem_map.mp hx with ⟨a, ha, hv⟩
    rw [List.mem_range] at ha
    constructor
    · have hnz : getCell g a c ≠ 0 :=
        complete_ne_zero g a c hcm (by rw [hwf]; exact idx_lt g.n a c ha hc)
      omega
    · rw [← hv]
      exact getCell_le g a c hrange

theorem boxValues_count (g : Sudoku) (hwf : WF g) (hsq : SquareN g)
    (hcons : Consistent g) (hrange : InRange g) (hcm : Complete g)
    (R C : Nat) (hR : R < sqrtN g) (hC : C < sqrtN g) :
    ∀ d, 1 ≤ d → d ≤ g.n → (boxValues g (sqrtN g) R C).count d = 1 := by
  have hn : sqrtN g * sqrtN g = g.n := hsq
  have hs : 0 < sqrtN g := by omega
  have hpos : ∀ t, t < sqrtN g * sqrtN g →
      R * sqrtN g + t / sqrtN g < g.n ∧ C * sqrtN g + t % sqrtN g < g.n := by
    intro t ht
    have h1 : t / sqrtN g < sqrtN g := (Nat.div_lt_iff_lt_mul hs).mpr ht
    have h2 : t % sqrtN g < sqrtN g := Nat.mod_lt t hs
    exact ⟨by have := idx_lt (sqrtN g) R (t / sqrtN g) hR h1; omega,
      by have := idx_lt (sqrtN g) C (t % sqrtN g) hC h2; omega⟩
  refine count_one_of_unit (boxValues g (sqrtN g) R C) g.n
    (by simp [boxValues]; omega) ?_ ?_
  · refine List.Nodup.map_on ?_ (List.nodup_range _)
    intro x hx y hy hxy
    rw [List.mem_range] at hx hy
    by_contra hne
    rcases hpos x hx with ⟨hrx, hcx⟩
    rcases hpos y hy with ⟨hry, hcy⟩
    have hnz : getCell g (R * sqrtN g + x / sqrtN g) (C * sqrtN g + x % sqrtN g) ≠ 0 :=
      complete_ne_zero g _ _ hcm (by rw [hwf]; exact idx_lt g.n _ _ hrx hcx)
    have hbr : (R * sqrtN g + x / sqrtN g) / sqrtN g =
        (R * sqrtN g + y / sqrtN g) / sqrtN g := by
      rw [idx_div (sqrtN g) R (x / sqrtN g) ((Nat.div_lt_iff_lt_mul hs).mpr hx),
        idx_div (sqrtN g) R (y / sqrtN g) ((Nat.div_lt_iff_lt_mul hs).mpr hy)]
    have hbc : (C * sqrtN g + x % sqrtN g) / sqrtN g =
        (C * sqrtN g + y % sqrtN g) / sqrtN g := by
      rw [idx_div (sqrtN g) C (x % sqrtN g) (Nat.mod_lt x hs),
        idx_div (sqrtN g) C (y % sqrtN g) (Nat.mod_lt y hs)]
    have hnep : R * sqrtN g + x / sqrtN g ≠ R * sqrtN g + y / sqrtN g ∨
        C * sqrtN g + x % sqrtN g ≠ C * sqrtN g + y % sqrtN g := by
      by_contra hcon
      push_neg at hcon
      rcases hcon with ⟨h1, h2⟩
      have hd1 : x / sqrtN g = y / sqrtN g := by omega
      have hd2 : x % sqrtN g = y % sqrtN g := by omega
      have hdx : x / sqrtN g * sqrtN g + x % sqrtN g = x :=
        box_coord_decomp (sqrtN g) x hs
      have hdy : y / sqrtN g * sqrtN g + y % sqrtN g = y :=
        box_coord_decomp (sqrtN g) y hs
      rw [hd1, hd2] at hdx
      exact hne (by omega)
    exact hcons.2.2 _ hrx _ hcx _ hry _ hcy hbr hbc hnep hnz hxy
  · intro x hx
    rcases List.mem_map.mp hx with ⟨t, ht, hv⟩
    rw [List.mem_range] at ht
    rcases hpos t ht with ⟨hrt, hct⟩
    constructor
    · have hnz : getCell g (R * sqrtN g + t / sqrtN g) (C * sqrtN g + t % sqrtN g) ≠ 0 :=
        complete_ne_zero g _ _ hcm (by rw [hwf]; exact idx_lt g.n _ _ hrt hct)
      omega
    · rw [← hv]
      exact getCell_le g _ _ hrange

theorem findHit_spec : ∀ (trace : List (Nat × Nat)) (g : Sudoku) (r c : Nat)
    (rest : List (Nat × Nat)), findHit g trace = some (r, c, rest) →
    getCell g r c ≠ 0 ∧ (r, c) ∈ trace ∧ ∀ p ∈ rest, p ∈ trace := by
  intro trace
  induction trace with
  | nil => intro g r c rest h; simp [findHit] at h
  | cons p tr ih =>
    intro g r c rest h
    rcases p with ⟨a, b⟩
    unfold findHit at h
    by_cases hz : getCell g a b = 0
    · rw [if_pos hz] at h
      rcases ih g r c rest h with ⟨h1, h2, h3⟩
      exact ⟨h1, List.mem_cons_of_mem _ h2, fun q hq => List.mem_cons_of_mem _ (h3 q hq)⟩
    · rw [if_neg hz] at h
      injection h with h'
      injection h' with ha h''
      injection h'' with hb hrest
      subst ha
      subst hb
      subst hrest
      exact ⟨hz, List.mem_cons_self _ _, fun q hq => List.mem_cons_of_mem _ hq⟩

theorem carve_spec : ∀ (k : Nat) (g : Sudoku) (trace : List (Nat × Nat))
    (gout : Sudoku), WF g → Consistent g → InRange g →
    (∀ p ∈ trace, p.1 < g.n ∧ p.2 < g.n) →
    carve g k trace = some gout →
    WF gout ∧ Consistent gout ∧ InRange gout ∧ gout.n = g.n ∧
      countZeros gout = countZeros g + k := by
  intro k
  induction k with
  | zero =>
    intro g trace gout hwf hcons hrange _ h
    unfold carve at h
    injection h with h'
    subst h'
    exact ⟨hwf, hcons, hrange, rfl, rfl⟩
  | succ k ih =>
    intro g trace gout hwf hcons hrange htr h
    unfold carve at h
    rcases hhit : findHit g trace with _ | ⟨r, c, rest⟩
    · rw [hhit] at h
      simp at h
    · rw [hhit] at h
      rcases findHit_spec trace g r c rest hhit with ⟨hnz, hmem, hsub⟩
      rcases htr (r, c) hmem with ⟨hr, hc⟩
      have hstep := ih (setCell g r c 0) rest gout
        (WF_setCell g r c 0 hwf)
        (consistent_setCell_zero g r c hwf hcons hr hc)
        (InRange_setCell g r c 0 hrange (Nat.zero_le _))
        (fun p hp => htr p (hsub p hp)) h
      rcases hstep with ⟨h1, h2, h3, h4, h5⟩
      refine ⟨h1, h2, h3, h4, ?_⟩
      rw [h5, countZeros_setCell_inc g r c hnz]
      omega

theorem count_zero_add_nonzero : ∀ l : List Nat,
    l.count 0 + (l.filter fun x => x != 0).length = l.length := by
  intro l
  induction l with
  | nil => rfl
  | cons x xs ih =>
    by_cases hx : x = 0
    · subst hx
      simp only [List.count_cons, List.filter_cons]
      simp
      omega
    · simp only [List.count_cons, List.filter_cons]
      have hb : (x != 0) = true := by simpa using hx
      simp [hb, hx]
      omega

theorem claim_C6 (sh : Sudoku → List Nat → List Nat) (g g2 : Sudoku)
    (h : solveInplace sh g = (none, g2)) : g2 = g :=
  solveAux_restore sh (countZeros g + 1) g g2 h

theorem claim_C6_witness : (solveInplace shId stuck4).2 = stuck4 :=
  claim_C6 shId stuck4 (solveInplace shId stuck4).2
    (Prod.ext (by decide) rfl)

theorem claim_C8 (sh : Sudoku → List Nat → List Nat) (g : Sudoku)
    (h : findEmpty g = none) : solveInplace sh g = (some g, g) :=
  solveAux_succ_none sh (countZeros g) g h

theorem claim_C8_witness : solveInplace shId solved4 = (some solved4, solved4) :=
  claim_C8 shId solved4 (by decide)

theorem claim_C10 (g : Sudoku) : (solveAll g).2 = g ∧ (isUnique g).2 = g := by
  constructor
  · exact solveAllHelper_snd (countZeros g + 1) g []
  · unfold isUnique isUniqueHelper
    rcases hfe : findEmpty g with _ | ⟨r, c⟩ <;> simp

theorem claim_C3_eval :
    (isUnique stuck4).1 = true ∧ (solveAll stuck4).1 = [] ∧
    ¬ ∃ s, Completion s stuck4 := by
  refine ⟨by decide, by decide, ?_⟩
  rintro ⟨s, hs⟩
  have hInv : Inv stuck4 := by decide
  have hmem : s ∈ (solveAll stuck4).1 := (solveAll_mem_iff stuck4 hInv s).mpr hs
  rw [show (solveAll stuck4).1 = [] from by decide] at hmem
  simp at hmem

theorem claim_C4_eval :
    (isUnique hole1).1 = true ∧
    generateUnique (fun _ => hole1) 1 1 = Except.error "GenerationExhausted" ∧
    generateUnique (fun _ => hole1) 1 2 = Except.ok hole1 ∧
    (isUnique open2).1 = false ∧
    generateUnique (fun _ => open2) 1 2 = Except.error "GenerationExhausted" := by
  refine ⟨by decide, by decide, by decide, by decide, by decide⟩

theorem claim_C2 (g : Sudoku) (hInv : Inv g) :
    (∀ s, s ∈ (solveAll g).1 ↔ Completion s g) ∧
    (∀ r c d, findEmpty g = some (r, c) → candidates g r c = [d] →
      countZeros g = 1 → (solveAll g).1 = [setCell g r c d]) := by
  refine ⟨fun s => solveAll_mem_iff g hInv s, ?_⟩
  intro r c d hfe hcand hcz
  have hz := (findEmpty_some_spec g r c hfe).1
  have hlt := (findEmpty_some_spec g r c hfe).2.1
  have hd1 : d ∈ candidates g r c := by
    rw [hcand]
    exact List.mem_cons_self d []
  have hdpos : 1 ≤ d := ((mem_candidates g r c d).mp hd1).1
  have hdec := countZeros_setCell_dec g r c d hz hlt (by omega)
  have hcm : Complete (setCell g r c d) := (complete_iff_countZeros _).mpr (by omega)
  have hfe2 : findEmpty (setCell g r c d) = none := (findEmpty_none_iff _).mpr hcm
  show (solveAllHelper (countZeros g + 1) g []).1 = [setCell g r c d]
  rw [hcz]
  rw [solveAllHelper_succ_some 1 g [] r c hfe]
  rw [hcand]
  simp only [List.foldl_cons, List.foldl_nil]
  rw [mkCopy_eq]
  rw [solveAllHelper_succ_none 0 (setCell g r c d) [] hfe2]
  simp [insertSol]

theorem claim_C2_witness :
    Inv oneCell4 ∧
    (solved4 ∈ (solveAll oneCell4).1 ↔ Completion solved4 oneCell4) ∧
    (solveAll oneCell4).1 = [setCell oneCell4 0 0 1] :=
  ⟨by decide, (claim_C2 oneCell4 (by decide)).1 solved4,
    (claim_C2 oneCell4 (by decide)).2 0 0 1 (by decide) (by decide) (by decide)⟩

theorem claim_C9_counterexample :
    (hasSolution shId clash4).1 = true ∧ ¬ ∃ s, Completion s clash4 := by
  refine ⟨by decide, ?_⟩
  rintro ⟨s, hwfs, hcm, hcons, hrange, hn, hext⟩
  have hn4 : s.n = 4 := hn
  have h1 : getCell s 0 0 = getCell clash4 0 0 := hext 0 (by decide) 0 (by decide) (by decide)
  have h2 : getCell s 0 1 = getCell clash4 0 1 := hext 0 (by decide) 1 (by decide) (by decide)
  have hv1 : getCell s 0 0 = 1 := by rw [h1]; decide
  have hv2 : getCell s 0 1 = 1 := by rw [h2]; decide
  have := hcons.1 0 (by omega) 0 (by omega) 1 (by omega) (by omega) (by omega)
  rw [hv1, hv2] at this
  exact this rfl

theorem claim_C9_amended (sh : Sudoku → List Nat → List Nat) (hsh : ShValid sh)
    (g : Sudoku) (hInv : Inv g) :
    ((hasSolution sh g).1 = true ↔ ∃ s, Completion s g) ∧
    (hasSolution sh g).2 = g := by
  refine ⟨?_, rfl⟩
  have h := (solveInplace_correct sh hsh g hInv).1
  constructor
  · intro ht
    exact h.mp ht
  · intro hex
    exact h.mpr hex

theorem claim_C9_witness :
    Inv oneCell4 ∧
    (((hasSolution shId oneCell4).1 = true ↔ ∃ s, Completion s oneCell4) ∧
      (hasSolution shId oneCell4).2 = oneCell4) :=
  ⟨by decide, claim_C9_amended shId shId_valid oneCell4 (by decide)⟩

theorem claim_C1 (sh : Sudoku → List Nat → List Nat) (hsh : ShValid sh)
    (s n : Nat) (hn : n = s * s) (hrep : n ≤ 255) :
    ∃ g', solveInplace sh (emptyGrid n) = (some g', g') ∧ g'.n = n ∧ Complete g' ∧
      (∀ r, r < n → ∀ d, 1 ≤ d → d ≤ n → (rowValues g' r).count d = 1) ∧
      (∀ c, c < n → ∀ d, 1 ≤ d → d ≤ n → (colValues g' c).count d = 1) ∧
      (∀ R C, R < s → C < s → ∀ d, 1 ≤ d → d ≤ n →
        (boxValues g' s R C).count d = 1) := by
  subst hn
  have hInv := inv_emptyGrid s
  have hsome : (solveInplace sh (emptyGrid (s * s))).1.isSome :=
    (solveInplace_correct sh hsh _ hInv).1.mpr
      ⟨canonical s, completion_canonical_emptyGrid s⟩
  rcases hres : solveInplace sh (emptyGrid (s * s)) with ⟨res, g2⟩
  cases res with
  | none =>
    rw [hres] at hsome
    simp at hsome
  | some g' =>
    rcases (solveInplace_correct sh hsh _ hInv).2.1 g' g2 hres with ⟨halias, hcomp⟩
    rcases hcomp with ⟨hwf, hcm, hcons, hrange, hng, hext⟩
    have hn' : g'.n = s * s := hng
    have hsr : sqrtN g' = s := by
      unfold sqrtN
      rw [hn']
      exact intSqrt_sq s
    have hsq : SquareN g' := by
      unfold SquareN
      rw [hsr, hn']
    refine ⟨g', by rw [halias], hn', hcm, ?_, ?_, ?_⟩
    · intro r hr d hd1 hd2
      exact rowValues_count g' hwf hcons hrange hcm r (by rw [hn']; exact hr)
        d hd1 (by rw [hn']; exact hd2)
    · intro c hc d hd1 hd2
      exact colValues_count g' hwf hcons hrange hcm c (by rw [hn']; exact hc)
        d hd1 (by rw [hn']; exact hd2)
    · intro R C hR hC d hd1 hd2
      have := boxValues_count g' hwf hsq hcons hrange hcm R C
        (by rw [hsr]; exact hR) (by rw [hsr]; exact hC)
        d hd1 (by rw [hn']; exact hd2)
      rw [hsr] at this
      exact this

theorem claim_C1_witness :
    ∃ g', solveInplace shId (emptyGrid 4) = (some g', g') ∧ g'.n = 4 ∧ Complete g' ∧
      (∀ r, r < 4 → ∀ d, 1 ≤ d → d ≤ 4 → (rowValues g' r).count d = 1) ∧
      (∀ c, c < 4 → ∀ d, 1 ≤ d → d ≤ 4 → (colValues g' c).count d = 1) ∧
      (∀ R C, R < 2 → C < 2 → ∀ d, 1 ≤ d → d ≤ 4 →
        (boxValues g' 2 R C).count d = 1) :=
  claim_C1 shId shId_valid 2 4 rfl (by omega)

theorem claim_C7 (sh : Sudoku → List Nat → List Nat) (hsh : ShValid sh)
    (trace : List (Nat × Nat)) (s n k : Nat) (hn : n = s * s) (hk : k ≤ n * n)
    (htr : ∀ p ∈ trace, p.1 < n ∧ p.2 < n) (gout : Sudoku)
    (hres : generate sh trace n k = some gout) :
    gout.n = n ∧ gout.cells.length = n * n ∧ countZeros gout = k ∧
      (gout.cells.filter fun x => x != 0).length = n * n - k ∧
      Consistent gout := by
  subst hn
  unfold generate at hres
  rw [if_neg (by omega)] at hres
  have hInv := inv_emptyGrid s
  have hsome : (solveAux sh (countZeros (emptyGrid (s * s)) + 1)
      (emptyGrid (s * s))).1.isSome :=
    (solveInplace_correct sh hsh _ hInv).1.mpr
      ⟨canonical s, completion_canonical_emptyGrid s⟩
  rcases hsv : solveAux sh (countZeros (emptyGrid (s * s)) + 1)
      (emptyGrid (s * s)) with ⟨res, post⟩
  cases res with
  | none =>
    rw [hsv] at hsome
    simp at hsome
  | some s' =>
    have halias : post = s' := solveAux_alias sh _ _ _ _ hsv
    have hcomp : Completion s' (emptyGrid (s * s)) :=
      solveAux_sound sh hsh _ _ _ _ hInv.1 hInv.2.1 hInv.2.2.1 hInv.2.2.2 hsv
    rcases hcomp with ⟨hwf, hcm, hcons, hrange, hns, hext⟩
    rw [hsv] at hres
    simp only at hres
    rw [halias] at hres
    have hzero : countZeros s' = 0 := (complete_iff_countZeros s').mp hcm
    have hns' : s'.n = s * s := hns
    have hcarve := carve_spec k s' trace gout hwf hcons hrange
      (fun p hp => by rw [hns']; exact htr p hp) hres
    rcases hcarve with ⟨hwfo, hconso, hrangeo, hno, hcnt⟩
    have h1 : gout.n = s * s := by rw [hno, hns']
    have h2 : gout.cells.length = s * s * (s * s) := by
      rw [hwfo, h1]
    have h3 : countZeros gout = k := by omega
    refine ⟨h1, h2, h3, ?_, hconso⟩
    have := count_zero_add_nonzero gout.cells
    unfold countZeros at h3
    omega

theorem claim_C7_witness :
    generate shId [(0, 0)] 4 1 = some oneCell4 ∧
    (oneCell4.n = 4 ∧ oneCell4.cells.length = 4 * 4 ∧ countZeros oneCell4 = 1 ∧
      (oneCell4.cells.filter fun x => x != 0).length = 4 * 4 - 1 ∧
      Consistent oneCell4) :=
  ⟨by decide, claim_C7 shId shId_valid [(0, 0)] 2 4 1 rfl (by omega)
    (by decide) oneCell4 (by decide)⟩

theorem claim_C5_counterexample :
    (∃ row ∈ bad4, ∃ x ∈ row, 4 < x) ∧
    construct bad4 = Except.ok oneCell4 ∧ getCell oneCell4 0 0 = 0 := by
  refine ⟨by decide, by decide, by decide⟩

theorem claim_C5_amended (r0 : List Nat) (rest : List (List Nat))
    (h2d : ((r0 :: rest).all fun row => row.length = r0.length) = true)
    (hsquare : r0.length = (r0 :: rest).length)
    (hps : intSqrt (r0 :: rest).length * intSqrt (r0 :: rest).length =
      (r0 :: rest).length) :
    ((∃ x ∈ (r0 :: rest).flatMap id, (r0 :: rest).length < x % 256) →
      construct (r0 :: rest) = Except.error "Grid contains invalid digits") ∧
    ((∀ x ∈ (r0 :: rest).flatMap id, x % 256 ≤ (r0 :: rest).length) →
      construct (r0 :: rest) =
        Except.ok ⟨(r0 :: rest).length, ((r0 :: rest).flatMap id).map (· % 256)⟩) ∧
    ((∀ x ∈ (r0 :: rest).flatMap id, x ≤ (r0 :: rest).length) →
      (r0 :: rest).length ≤ 255 →
      construct (r0 :: rest) =
        Except.ok ⟨(r0 :: rest).length, (r0 :: rest).flatMap id⟩) := by
  have hstep : construct (r0 :: rest) =
      if ¬ ((((r0 :: rest).flatMap id).map (· % 256)).all
          fun x => x ≤ (r0 :: rest).length) then
        Except.error "Grid contains invalid digits"
      else
        Except.ok ⟨(r0 :: rest).length, ((r0 :: rest).flatMap id).map (· % 256)⟩ := by
    unfold construct
    simp only
    rw [if_neg (not_not_intro h2d), if_neg (not_not_intro hsquare),
      if_neg (not_not_intro hps)]
  refine ⟨?_, ?_, ?_⟩
  · rintro ⟨x, hx, hgt⟩
    rw [hstep]
    rw [if_pos ?_]
    intro hall
    have := (List.all_eq_true.mp hall) (x % 256) (List.mem_map.mpr ⟨x, hx, rfl⟩)
    simp only [decide_eq_true_eq] at this
    omega
  · intro hle
    rw [hstep]
    rw [if_neg (not_not_intro ?_)]
    refine List.all_eq_true.mpr ?_
    intro v hv
    rcases List.mem_map.mp hv with ⟨x, hx, hvx⟩
    simp only [decide_eq_true_eq]
    rw [← hvx]
    exact hle x hx
  · intro hle hrep
    have hle' : ∀ x ∈ (r0 :: rest).flatMap id, x % 256 ≤ (r0 :: rest).length := by
      intro x hx
      have h1 := hle x hx
      have h2 : x % 256 = x := Nat.mod_eq_of_lt (by omega)
      omega
    rw [hstep]
    rw [if_neg (not_not_intro ?_)]
    · have hmap : ((r0 :: rest).flatMap id).map (· % 256) = (r0 :: rest).flatMap id := by
        have hcongr : ((r0 :: rest).flatMap id).map (· % 256) =
            ((r0 :: rest).flatMap id).map id := by
          refine List.map_congr_left ?_
          intro x hx
          have h1 := hle x hx
          exact Nat.mod_eq_of_lt (by omega)
        rw [hcongr, List.map_id]
      rw [hmap]
    · refine List.all_eq_true.mpr ?_
      intro v hv
      rcases List.mem_map.mp hv with ⟨x, hx, hvx⟩
      simp only [decide_eq_true_eq]
      rw [← hvx]
      exact hle' x hx

theorem claim_C5_witness :
    construct good4 = Except.ok ⟨good4.length, good4.flatMap id⟩ ∧
    (⟨good4.length, good4.flatMap id⟩ : Sudoku) = solved4 :=
  ⟨(claim_C5_amended [1, 2, 3, 4] [[3, 4, 1, 2], [2, 1, 4, 3], [4, 3, 2, 1]]
      (by decide) (by decide) (by decide)).2.2 (by decide) (by decide),
    by decide⟩

end SuDoku
